import Mathlib

/-!
# Verification of the pintar-ekspor analytics pipeline

A shallow embedding of the analytics pipeline of the pintar-ekspor backend
(`backend/app/services/...`): the numeric sanitizer, the data cleaner, the
transformer, the statistics/forecast engine and the chart serializer,
together with theorems settling the frozen claims about them.

Modelling conventions:

* Finite IEEE-754 doubles are modelled as exact rationals (ℚ).  Rounding is
  not modelled; it is irrelevant to every claim, which are all about
  null-propagation, clamping, thresholds and exact formulas.
* Overflow of float computations to non-finite values IS modelled at the
  places where a value is accumulated before being sanitized (sums, means,
  variances): a monotone accumulation whose exact value exceeds the largest
  finite double `fMax` yields a non-finite float in the source, modelled as
  `none` (or an explicit infinity marker where the non-finite value is kept,
  as in the chart resampler).
* Values that are square roots of rationals (standard deviations, RMSE) are
  represented by their radicand: the field named `std` below holds the value
  whose square root the source stores.  Square root is strictly monotone and
  injective on nonnegative reals, so nullity and (in)equality of the stored
  value are faithfully decided on the radicand.
* Python `None`/NaN inputs and non-numeric inputs are modelled by the
  `PyVal` constructors.
-/

set_option maxRecDepth 8000

/-- The sanitizer magnitude bound 1e308 used across the pipeline
(`numeric_limits.max_value`). -/
def bigQ : ℚ := ((10 ^ 308 : ℕ) : ℚ)

/-- The largest finite IEEE-754 double, `(2^53 - 1) * 2^971`.  A float
computation whose exact value exceeds this in magnitude overflows to a
non-finite value. -/
def fMax : ℚ := (((2 ^ 53 - 1) * 2 ^ 971 : ℕ) : ℚ)

/-- A Python value as it can appear in a numeric column or argument:
absent (`None`), a float NaN, a float infinity, a string that does not
convert to a float, a string that converts to the finite float `q`, or a
finite float `q`. -/
inductive PyVal where
  | absent
  | nan
  | posInf
  | negInf
  | nonNumericStr
  | numStr (q : ℚ)
  | num (q : ℚ)
deriving DecidableEq

/-- Restriction of the numeric sanitizer to finite floats: null exactly when
the magnitude exceeds 1e308 (`abs(value) > max_value` in the source). -/
def sanitizeQ (q : ℚ) : Option ℚ := if bigQ < |q| then none else some q

namespace DataAnalytics

/-- `DataAnalytics._safe_numeric` (statistics.py): null on absent, NaN,
infinity, a non-convertible string, or magnitude above 1e308; otherwise the
finite float itself. -/
def safe_numeric : PyVal → Option ℚ
  | .absent => none
  | .nan => none
  | .posInf => none
  | .negInf => none
  | .nonNumericStr => none
  | .numStr q => sanitizeQ q
  | .num q => sanitizeQ q

/-- `DataAnalytics._safe_division` (statistics.py): null on a zero
denominator, otherwise the sanitized quotient. -/
def safe_division (a b : ℚ) : Option ℚ :=
  if b = 0 then none else sanitizeQ (a / b)

end DataAnalytics

namespace DataTransformer

/-- `DataTransformer._safe_numeric` (transformer.py), duplicated from the
statistics engine. -/
def safe_numeric : PyVal → Option ℚ
  | .absent => none
  | .nan => none
  | .posInf => none
  | .negInf => none
  | .nonNumericStr => none
  | .numStr q => sanitizeQ q
  | .num q => sanitizeQ q

/-- `DataTransformer._safe_division` (transformer.py). -/
def safe_division (a b : ℚ) : Option ℚ :=
  if b = 0 then none else sanitizeQ (a / b)

end DataTransformer

namespace DataExporter

/-- `DataExporter._safe_numeric` (export.py), duplicated again. -/
def safe_numeric : PyVal → Option ℚ
  | .absent => none
  | .nan => none
  | .posInf => none
  | .negInf => none
  | .nonNumericStr => none
  | .numStr q => sanitizeQ q
  | .num q => sanitizeQ q

end DataExporter

namespace ChartGenerator

/-- `ChartGenerator._sanitize_float` (chart_generator.py): same contract as
the other three sanitizers (ints, floats, Decimals and convertible strings
become floats; NaN, infinities, non-convertible values and magnitudes above
1e308 become null). -/
def sanitize_float : PyVal → Option ℚ
  | .absent => none
  | .nan => none
  | .posInf => none
  | .negInf => none
  | .nonNumericStr => none
  | .numStr q => sanitizeQ q
  | .num q => sanitizeQ q

end ChartGenerator

/-! ## Shared numeric helpers -/

/-- Arithmetic mean of a list of rationals (exact value). -/
def listMean (l : List ℚ) : ℚ := l.sum / l.length

/-- Sum of squared deviations from the mean. -/
def devSqSum (l : List ℚ) : ℚ := (l.map (fun x => (x - listMean l) ^ 2)).sum

/-- Minimum of a list, as `Series.min` returns it (null on empty). -/
def listMin : List ℚ → Option ℚ
  | [] => none
  | v :: rest =>
    some (match listMin rest with
          | none => v
          | some m => min v m)

/-- Maximum of a list, as `Series.max` returns it (null on empty). -/
def listMax : List ℚ → Option ℚ
  | [] => none
  | v :: rest =>
    some (match listMax rest with
          | none => v
          | some m => max v m)

/-- Whether the running float accumulation of the sum of a list (bottleneck
or numpy style, in iteration order) overflows to a non-finite value: true
exactly when some prefix sum exceeds the largest finite double in
magnitude.  Rounding is not modelled; once a prefix overflows, the float
sum stays non-finite whatever follows. -/
def anyPrefixOver : ℚ → List ℚ → Bool
  | _, [] => false
  | acc, v :: rest =>
    (decide (fMax < |acc + v|)) || anyPrefixOver (acc + v) rest

/-- Overflow of the float sum of a list, from a zero accumulator. -/
def floatSumOverflows (l : List ℚ) : Bool := anyPrefixOver 0 l

/-- Sanitizer applied to a value stored as `sqrt r` for the radicand `r ≥ 0`:
the source value is null exactly when `sqrt r > 1e308`, i.e. `r > (1e308)^2`;
a negative radicand would make the source value NaN, hence null. -/
def sanitizeSqrtRad (r : ℚ) : Option ℚ :=
  if r < 0 then none else if bigQ ^ 2 < r then none else some r

/-- Ordinary least squares fit of `value` against the sequential index
`0..n-1`, as `LinearRegression().fit` computes it: `none` when the fit
raises (empty input); for a single sample the minimum-norm solution has
slope `0`; otherwise the usual closed form.  Returns `(slope, intercept)`. -/
def linfit (ys : List ℚ) : Option (ℚ × ℚ) :=
  match ys with
  | [] => none
  | [y] => some (0, y)
  | _ =>
    let n : ℚ := ys.length
    let xbar : ℚ := (n - 1) / 2
    let ybar : ℚ := ys.sum / n
    let sxx : ℚ := ((List.range ys.length).map (fun i : ℕ => ((i : ℚ) - xbar) ^ 2)).sum
    let sxy : ℚ := (ys.enum.map (fun p => ((p.1 : ℚ) - xbar) * (p.2 - ybar))).sum
    let b := sxy / sxx
    some (b, ybar - b * xbar)

/-- Fitted values `model.predict(X)` on the historical index. -/
def fittedLine (ys : List ℚ) : List ℚ :=
  match linfit ys with
  | none => []
  | some (b, a) => (List.range ys.length).map (fun i : ℕ => a + b * (i : ℚ))

/-- `model.score(X, values)` = the R² coefficient of determination as
sklearn computes it: NaN (modelled `none`) below two samples; with a
constant target, `1` for a perfect fit and `0` otherwise. -/
def r2score (ys : List ℚ) : Option ℚ :=
  if ys.length < 2 then none
  else
    let ssTot := devSqSum ys
    let ssRes := ((ys.zipWith (fun y f => (y - f) ^ 2) (fittedLine ys))).sum
    if ssTot = 0 then (if ssRes = 0 then some 1 else some 0)
    else some (1 - ssRes / ssTot)

/-! ## Statistics / forecast engine (statistics.py) -/

/-- Trend direction tag. -/
inductive TrendDirection where
  | increasing
  | decreasing
  | stable
  | unknown
deriving DecidableEq

/-- The `trend_analysis` record built by `DataAnalytics._analyze_trend`. -/
structure TrendAnalysis where
  direction : TrendDirection
  slope : Option ℚ
  strength : Option ℚ
  significant : Bool
  trend_values : List (Option ℚ)
deriving DecidableEq

/-- The `basic_stats` record built by `DataAnalytics._calculate_basic_stats`.
The `std` field holds the radicand of the stored standard deviation (see the
file header). -/
structure BasicStats where
  mean : Option ℚ
  median : Option ℚ
  std : Option ℚ
  min : Option ℚ
  max : Option ℚ
  last_value : Option ℚ
deriving DecidableEq

/-- The `growth_metrics` dict built by
`DataAnalytics._calculate_growth_metrics`.  The window entries are absent
(outer `none`) when the series is shorter than the window. -/
structure GrowthMetrics where
  total_growth : Option ℚ
  growth7 : Option (Option ℚ)
  growth30 : Option (Option ℚ)
deriving DecidableEq

/-- Forecast accuracy metrics; `rmse` and `std_error` hold radicands. -/
structure FMetrics where
  mae : Option ℚ
  rmse : Option ℚ
  std_error : Option ℚ
deriving DecidableEq

/-- The forecast dict built by `DataAnalytics._generate_forecast`.  A bound
entry `some (p, r)` denotes the sanitized value `p ∓ 2·sqrt r` (prediction
minus/plus two residual standard errors); `none` is a null entry. -/
structure Forecast where
  predictions : List (Option ℚ)
  lower_bound : List (Option (ℚ × ℚ))
  upper_bound : List (Option (ℚ × ℚ))
  metrics : FMetrics
deriving DecidableEq

/-- `AnalyticsResults` dataclass. -/
structure AnalyticsResults where
  trend_analysis : TrendAnalysis
  growth_metrics : GrowthMetrics
  basic_stats : BasicStats
  forecast : Option Forecast
deriving DecidableEq

namespace DataAnalytics

/-- `values.mean()` followed by `_safe_numeric`: none when the running
float sum overflows (non-finite mean) or the mean exceeds the sanitizer
bound. -/
def sanMean (vals : List ℚ) : Option ℚ :=
  if floatSumOverflows vals then none else sanitizeQ (vals.sum / vals.length)

/-- `values.median()` followed by `_safe_numeric`: middle of the sorted
values; for an even count, the mean of the two middle values (none if the
float sum of the middles overflows). -/
def sanMedian (vals : List ℚ) : Option ℚ :=
  let s := List.insertionSort (· ≤ ·) vals
  let n := vals.length
  if n % 2 = 1 then sanitizeQ (s.getD (n / 2) 0)
  else
    let a := s.getD (n / 2 - 1) 0
    let b := s.getD (n / 2) 0
    if fMax < |a + b| then none else sanitizeQ ((a + b) / 2)

/-- `values.std()` followed by `_safe_numeric`, as the radicand of the
sample standard deviation pandas computes (ddof = 1): none below two
samples (NaN), on float overflow of the accumulation, or when the standard
deviation exceeds the sanitizer bound. -/
def sanStdRad (vals : List ℚ) : Option ℚ :=
  if vals.length < 2 then none
  else if floatSumOverflows vals then none
  else if fMax < devSqSum vals then none
  else sanitizeSqrtRad (devSqSum vals / ((vals.length : ℚ) - 1))

/-- `DataAnalytics._calculate_basic_stats`: each statistic individually
sanitized; any exception (only possible on an empty value column) yields the
all-null record. -/
def calculate_basic_stats (vals : List ℚ) : BasicStats :=
  if vals.isEmpty then ⟨none, none, none, none, none, none⟩
  else
    { mean := sanMean vals
      median := sanMedian vals
      std := sanStdRad vals
      min := (listMin vals).bind sanitizeQ
      max := (listMax vals).bind sanitizeQ
      last_value := vals.getLast?.bind sanitizeQ }

/-- The sanitized regression slope used by `_analyze_trend` and the
transformer: `_safe_numeric(float(model.coef_[0]))`. -/
def slopeOf (vals : List ℚ) : Option ℚ :=
  match linfit vals with
  | none => none
  | some (b, _) => sanitizeQ b

/-- `DataAnalytics._analyze_trend`: regression of value on the sequential
index; sanitized slope, R² and fitted line; direction from the
mean-relative slope with threshold `significant_change = 0.01`.  When
`np.mean` overflows to an infinity the float quotient `slope / avg` is a
signed zero, which sanitizes to `0` (hence `stable`). -/
def analyze_trend (vals : List ℚ) : TrendAnalysis :=
  match linfit vals with
  | none => ⟨.unknown, none, none, false, []⟩
  | some (b, a) =>
    let slope := sanitizeQ b
    let strength := (r2score vals).bind sanitizeQ
    let tl := ((List.range vals.length).map (fun i : ℕ => a + b * (i : ℚ))).map sanitizeQ
    let rel : Option ℚ :=
      match slope with
      | none => none
      | some s =>
        if floatSumOverflows vals then some 0
        else safe_division s (listMean vals)
    let dir : TrendDirection :=
      match rel, slope with
      | none, _ => .unknown
      | some r, some s =>
        if |r| < 1 / 100 then .stable
        else if 0 < s then .increasing else .decreasing
      | some _, none => .unknown
    let signif : Bool :=
      match rel with
      | none => false
      | some r => decide (1 / 100 ≤ |r|)
    ⟨dir, slope, strength, signif, tl⟩

/-- Growth over the trailing window `w`: endpoints `iloc[-w]` and
`iloc[-1]`, each sanitized, then `_safe_division`. -/
def windowGrowth (vals : List ℚ) (w : ℕ) : Option ℚ :=
  match sanitizeQ (vals.getD (vals.length - w) 0), sanitizeQ (vals.getLastD 0) with
  | some s, some e =>
    if fMax < |e - s| then none else safe_division (e - s) s
  | _, _ => none

/-- `DataAnalytics._calculate_growth_metrics`: total growth from the
sanitized endpoints via `_safe_division`; growth over windows 7 and 30 only
when the series is at least that long; an exception (empty column) yields
the record with only a null `total_growth`. -/
def calculate_growth_metrics (vals : List ℚ) : GrowthMetrics :=
  match vals with
  | [] => ⟨none, none, none⟩
  | v0 :: _ =>
    let total : Option ℚ :=
      match sanitizeQ v0, sanitizeQ (vals.getLastD 0) with
      | some f, some l =>
        if fMax < |l - f| then none else safe_division (l - f) f
      | _, _ => none
    ⟨total,
     if 7 ≤ vals.length then some (windowGrowth vals 7) else none,
     if 30 ≤ vals.length then some (windowGrowth vals 30) else none⟩

/-- `np.std(residuals)` followed by `_safe_numeric`, as a radicand: the
population variance of the residuals; none when the float accumulation
overflows (a residual, the sum, or the sum of squared deviations beyond
`fMax`) or when the standard deviation exceeds the sanitizer bound. -/
def npStdRad (rs : List ℚ) : Option ℚ :=
  if rs.any (fun r => decide (fMax < |r|)) then none
  else if floatSumOverflows rs then none
  else if fMax < devSqSum rs then none
  else sanitizeSqrtRad (devSqSum rs / rs.length)

/-- Whether the sanitized value `p - 2·sqrt r` (with `r ≥ 0`) is null, i.e.
whether `|p - 2·sqrt r| > 1e308`, decided on rationals by squaring. -/
def lowerOut (p r : ℚ) : Bool :=
  decide ((0 < p - bigQ ∧ 4 * r < (p - bigQ) ^ 2) ∨
          (p + bigQ < 0 ∨ (p + bigQ) ^ 2 < 4 * r))

/-- Whether the sanitized value `p + 2·sqrt r` (with `r ≥ 0`) is null. -/
def upperOut (p r : ℚ) : Bool :=
  decide ((bigQ - p < 0 ∨ (bigQ - p) ^ 2 < 4 * r) ∨
          (p + bigQ < 0 ∧ 4 * r < (p + bigQ) ^ 2))

/-- `model.predict(future_X)` for the 30-step horizon, each prediction
sanitized. -/
def predsOf (vals : List ℚ) (b a : ℚ) : List (Option ℚ) :=
  (List.range 30).map (fun k : ℕ => sanitizeQ (a + b * ((vals.length : ℚ) + (k : ℚ))))

/-- `values - model.predict(X)`: the historical residuals of the fit. -/
def residualsOf (vals : List ℚ) (b a : ℚ) : List ℚ :=
  vals.zipWith (fun y f => y - f) ((List.range vals.length).map (fun i : ℕ => a + b * (i : ℚ)))

/-- `mean_absolute_error` of the historical fit, sanitized: none when the
float residuals or their accumulated sum overflow. -/
def maeOf (vals : List ℚ) (b a : ℚ) : Option ℚ :=
  if (residualsOf vals b a).any (fun r => decide (fMax < |r|)) then none
  else if fMax < ((residualsOf vals b a).map (fun r => |r|)).sum then none
  else sanitizeQ (((residualsOf vals b a).map (fun r => |r|)).sum / (vals.length : ℚ))

/-- `np.sqrt(mean_squared_error(..))`, sanitized, as a radicand: none when
the squared float residuals overflow. -/
def rmseOf (vals : List ℚ) (b a : ℚ) : Option ℚ :=
  if (residualsOf vals b a).any (fun r => decide (fMax < |r|)) then none
  else if fMax < ((residualsOf vals b a).map (fun r => r ^ 2)).sum then none
  else sanitizeSqrtRad (((residualsOf vals b a).map (fun r => r ^ 2)).sum / (vals.length : ℚ))

/-- `DataAnalytics._generate_forecast`: fit the regression, predict 30
steps ahead (each sanitized), compute MAE, RMSE and the residual standard
error from the historical fit.  When the residual standard error is defined
the bounds are `prediction ∓ 2·std_err` (a null prediction then raises a
TypeError inside the comprehension, so the whole forecast degrades to
`none`); when it is null the bounds are null-filled lists.  Any exception
yields `none`. -/
def generate_forecast (vals : List ℚ) : Option Forecast :=
  match linfit vals with
  | none => none
  | some (b, a) =>
    match npStdRad (residualsOf vals b a) with
    | none =>
      some ⟨predsOf vals b a,
            List.replicate (predsOf vals b a).length none,
            List.replicate (predsOf vals b a).length none,
            ⟨maeOf vals b a, rmseOf vals b a, none⟩⟩
    | some r =>
      if (predsOf vals b a).any (fun p => p.isNone) then none
      else
        some ⟨predsOf vals b a,
              (predsOf vals b a).map (fun p? =>
                p?.bind (fun p => if lowerOut p r then none else some (p, r))),
              (predsOf vals b a).map (fun p? =>
                p?.bind (fun p => if upperOut p r then none else some (p, r))),
              ⟨maeOf vals b a, rmseOf vals b a, some r⟩⟩

/-- `DataAnalytics.analyze_pair`: reject below `min_points = 10` raw rows,
sanitize the value column and drop nulls, reject if nothing remains, then
assemble the components (forecast only when requested). -/
def analyze_pair (include_forecast : Bool) (vals0 : List PyVal) :
    Except String AnalyticsResults :=
  if vals0.length < 10 then .error "Insufficient data points"
  else
    let vals := vals0.filterMap safe_numeric
    if vals.isEmpty then .error "No valid numeric values after cleaning"
    else
      .ok { trend_analysis := analyze_trend vals
            growth_metrics := calculate_growth_metrics vals
            basic_stats := calculate_basic_stats vals
            forecast := if include_forecast then generate_forecast vals else none }

/-- `DataAnalytics.analyze_pairs`: per-key processing, skipping empty
frames and keys whose analysis raises. -/
def analyze_pairs (include_forecast : Bool) (m : List (String × List PyVal)) :
    List (String × AnalyticsResults) :=
  m.filterMap (fun p =>
    if p.2.isEmpty then none
    else
      match analyze_pair include_forecast p.2 with
      | .ok r => some (p.1, r)
      | .error _ => none)

/-- Whether a key survives the analysis batch. -/
def analyzeKept (include_forecast : Bool) (vals : List PyVal) : Bool :=
  if vals.isEmpty then false
  else
    match analyze_pair include_forecast vals with
    | .ok _ => true
    | .error _ => false

/-- The analysis stage of the route handler (api/analytics.py): the batch
result is an error only when it is empty. -/
def analyze_stage (include_forecast : Bool) (m : List (String × List PyVal)) :
    Except String (List (String × AnalyticsResults)) :=
  if (analyze_pairs include_forecast m).isEmpty then
    .error "Analysis produced no valid results"
  else .ok (analyze_pairs include_forecast m)

end DataAnalytics

/-! ## Data cleaner (cleaner.py) -/

/-- `DataQualityMetrics` dataclass. -/
structure DataQualityMetrics where
  missing_count : ℕ
  duplicate_count : ℕ
  outlier_count : ℕ
  total_records : ℕ
  clean_records : ℕ
deriving DecidableEq

deriving instance DecidableEq for Except

namespace DataCleaner

/-- The last valid observation at or before position `k` (with its
position), as forward fill sees it. -/
def prevValid (l : List (Option ℚ)) : ℕ → Option (ℕ × ℚ)
  | 0 => (l.getD 0 none).map (fun v => (0, v))
  | k + 1 =>
    match l.getD (k + 1) none with
    | some v => some (k + 1, v)
    | none => prevValid l k

/-- Helper for `nextValid`: scan a suffix for its first valid observation,
threading the absolute position. -/
def nextValidAux : List (Option ℚ) → ℕ → Option (ℕ × ℚ)
  | [], _ => none
  | some v :: _, k => some (k, v)
  | none :: rest, k => nextValidAux rest (k + 1)

/-- The first valid observation at or after position `k`. -/
def nextValid (l : List (Option ℚ)) (k : ℕ) : Option (ℕ × ℚ) :=
  nextValidAux (l.drop k) k

/-- `Series.ffill`: each position takes the last valid observation at or
before it (null when there is none). -/
def ffill (l : List (Option ℚ)) : List (Option ℚ) :=
  (List.range l.length).map (fun k => (prevValid l k).map Prod.snd)

/-- `Series.bfill`: each position takes the first valid observation at or
after it. -/
def bfill (l : List (Option ℚ)) : List (Option ℚ) :=
  (List.range l.length).map (fun k => (nextValid l k).map Prod.snd)

/-- `Series.interpolate(method='linear')`: interior gaps are linearly
interpolated between the surrounding valid observations by position,
trailing gaps are held at the last valid observation, leading gaps stay
null. -/
def interpolate (l : List (Option ℚ)) : List (Option ℚ) :=
  (List.range l.length).map (fun k =>
    match l.getD k none with
    | some v => some v
    | none =>
      match prevValid l k, nextValid l k with
      | some (i, vi), some (j, vj) =>
        some (vi + (vj - vi) * (((k : ℚ) - (i : ℚ)) / ((j : ℚ) - (i : ℚ))))
      | some (_, vi), none => some vi
      | _, _ => none)

/-- `DataCleaner._handle_missing_values`: forward fill, then linear
interpolation, then backward fill, on the value column. -/
def handle_missing_values (rows : List (ℕ × Option ℚ)) : List (ℕ × Option ℚ) :=
  (rows.map Prod.fst).zip (bfill (interpolate (ffill (rows.map Prod.snd))))

/-- Helper for duplicate-timestamp removal keeping first occurrences. -/
def dedupKeysAux : List ℕ → List (ℕ × Option ℚ) → List (ℕ × Option ℚ)
  | _, [] => []
  | seen, r :: rest =>
    if r.1 ∈ seen then dedupKeysAux seen rest
    else r :: dedupKeysAux (r.1 :: seen) rest

/-- `df[~df.index.duplicated(keep='first')]`. -/
def dedupKeys (rows : List (ℕ × Option ℚ)) : List (ℕ × Option ℚ) :=
  dedupKeysAux [] rows

/-- `Series.quantile(p)` with the default linear interpolation: with sorted
values `s` and `h = (n-1)·p`, the value `s[⌊h⌋] + (h - ⌊h⌋)·(s[⌊h⌋+1] - s[⌊h⌋])`. -/
def quantile (vals : List ℚ) (p : ℚ) : ℚ :=
  let s := List.insertionSort (· ≤ ·) vals
  let h : ℚ := ((vals.length : ℚ) - 1) * p
  let i : ℕ := (⌊h⌋).toNat
  let lo := s.getD i 0
  let hi := s.getD (i + 1) lo
  lo + (h - (i : ℚ)) * (hi - lo)

/-- `Q1 - 1.5·IQR` with the configured `outlier_threshold = 1.5`. -/
def lowerBound (vals : List ℚ) : ℚ :=
  quantile vals (1 / 4) - 3 / 2 * (quantile vals (3 / 4) - quantile vals (1 / 4))

/-- `Q3 + 1.5·IQR`. -/
def upperBound (vals : List ℚ) : ℚ :=
  quantile vals (3 / 4) + 3 / 2 * (quantile vals (3 / 4) - quantile vals (1 / 4))

/-- `DataCleaner._handle_outliers`: quartiles over the value column, values
strictly outside `[Q1 - 1.5·IQR, Q3 + 1.5·IQR]` are counted and replaced by
the nearest bound (nulls compare false and are untouched). -/
def handle_outliers (rows : List (ℕ × Option ℚ)) : List (ℕ × Option ℚ) × ℕ :=
  let vals := rows.filterMap Prod.snd
  let lo := lowerBound vals
  let hi := upperBound vals
  (rows.map (fun r =>
     (r.1, r.2.map (fun v => if v < lo then lo else if hi < v then hi else v))),
   vals.countP (fun v => decide (v < lo) || decide (hi < v)))

/-- `DataCleaner.clean_pair`: reject below `min_records = 3` rows or a
missing fraction above `max_missing_pct = 0.3`; impute, drop duplicate
timestamps keeping the first, clip outliers; return the cleaned rows with
the quality metrics. -/
def clean_pair (rows : List (ℕ × Option ℚ)) :
    Except String (List (ℕ × Option ℚ) × DataQualityMetrics) :=
  if rows.length < 3 then .error "Insufficient records"
  else
    let missing := rows.countP (fun r => r.2.isNone)
    if (3 : ℚ) / 10 < (missing : ℚ) / (rows.length : ℚ) then
      .error "Too many missing values"
    else
      let filled := handle_missing_values rows
      let deduped := dedupKeys filled
      let out := handle_outliers deduped
      .ok (out.1, ⟨missing, filled.length - deduped.length, out.2,
                   rows.length, out.1.length⟩)

/-- Whether a key survives the cleaning batch (`clean_pair` succeeds with a
nonempty frame). -/
def cleanKept (rows : List (ℕ × Option ℚ)) : Bool :=
  match clean_pair rows with
  | .ok (c, _) => !c.isEmpty
  | .error _ => false

/-- `DataCleaner.clean_pairs`: per-key processing; a key whose cleaning
raises, or comes back empty, is dropped. -/
def clean_pairs (m : List (String × List (ℕ × Option ℚ))) :
    List (String × (List (ℕ × Option ℚ) × DataQualityMetrics)) :=
  m.filterMap (fun p =>
    match clean_pair p.2 with
    | .ok (c, met) => if c.isEmpty then none else some (p.1, (c, met))
    | .error _ => none)

/-- The cleaning stage of the route handler (api/analytics.py): an error
only when the batch result is empty. -/
def clean_stage (m : List (String × List (ℕ × Option ℚ))) :
    Except String (List (String × (List (ℕ × Option ℚ) × DataQualityMetrics))) :=
  if (clean_pairs m).isEmpty then .error "No valid data after cleaning"
  else .ok (clean_pairs m)

end DataCleaner

/-! ## Transformer (transformer.py) -/

/-- `TransformationMetrics` dataclass; the moving-average entries are
absent (outer `none`) only on the exception path. -/
structure TransformationMetrics where
  trend_direction : TrendDirection
  growth_rate : Option ℚ
  ma7 : Option (Option ℚ)
  ma30 : Option (Option ℚ)
deriving DecidableEq

/-- The transformed frame: value column plus derived feature columns. -/
structure TransformedDF where
  value : List ℚ
  ma7 : List (Option ℚ)
  ma30 : List (Option ℚ)
  pct_change : List (Option ℚ)
deriving DecidableEq

namespace DataTransformer

/-- `Series.rolling(window=w, min_periods=3).mean()` followed by
`_safe_numeric`, for `w ≥ 3`: null until three observations are in the
window, then the mean of the last `min(i+1, w)` values (null when the float
accumulation overflows or the sanitizer rejects the mean). -/
def rollingMean (w : ℕ) (vals : List ℚ) : List (Option ℚ) :=
  (List.range vals.length).map (fun i =>
    if i + 1 < 3 then none
    else
      let start := i + 1 - w
      let win := (vals.drop start).take (i + 1 - start)
      if floatSumOverflows win then none
      else sanitizeQ (win.sum / (win.length : ℚ)))

/-- `Series.pct_change()` followed by `_safe_numeric`: null at the first
position; each later position is the change relative to its predecessor
(a zero predecessor gives a non-finite float, hence null). -/
def pctChange (vals : List ℚ) : List (Option ℚ) :=
  (List.range vals.length).map (fun i =>
    if i = 0 then none
    else
      let prev := vals.getD (i - 1) 0
      if prev = 0 then none
      else if fMax < |vals.getD i 0 - prev| then none
      else sanitizeQ ((vals.getD i 0 - prev) / prev))

/-- `DataTransformer._calculate_trend_metrics`: overall growth rate from
the sanitized endpoints, last moving-average values re-sanitized, slope of
the OLS fit; direction `unknown` when the slope is null, `stable` when
`abs(growth_rate or 0)` is below `growth_threshold = 0.05`, otherwise by
the sign test `slope > 0`.  An exception (empty column) yields the default
record with an empty moving-average dict. -/
def calculate_trend_metrics (vals : List ℚ) (ma7last ma30last : Option ℚ) :
    TransformationMetrics :=
  match vals with
  | [] => ⟨.unknown, none, none, none⟩
  | v0 :: _ =>
    let growth_rate : Option ℚ :=
      match sanitizeQ v0, sanitizeQ (vals.getLastD 0) with
      | some f, some l =>
        if fMax < |l - f| then none else safe_division (l - f) f
      | _, _ => none
    let dir : TrendDirection :=
      match DataAnalytics.slopeOf vals with
      | none => .unknown
      | some s =>
        if |growth_rate.getD 0| < 1 / 20 then .stable
        else if 0 < s then .increasing else .decreasing
    ⟨dir, growth_rate, some (ma7last.bind sanitizeQ), some (ma30last.bind sanitizeQ)⟩

/-- `DataTransformer.transform_pair`: sanitize and drop nulls, reject if
empty, add the moving-average and percent-change columns, compute the trend
metrics. -/
def transform_pair (vals0 : List PyVal) :
    Except String (TransformedDF × TransformationMetrics) :=
  let vals := vals0.filterMap safe_numeric
  if vals.isEmpty then .error "No valid numeric values after cleaning"
  else
    let ma7 := rollingMean 7 vals
    let ma30 := rollingMean 30 vals
    .ok (⟨vals, ma7, ma30, pctChange vals⟩,
         calculate_trend_metrics vals (ma7.getLastD none) (ma30.getLastD none))

/-- Whether a key survives the transformation batch. -/
def transformKept (vals : List PyVal) : Bool :=
  if vals.isEmpty then false
  else
    match transform_pair vals with
    | .ok (d, _) => !d.value.isEmpty
    | .error _ => false

/-- `DataTransformer.transform_pairs`: per-key processing, skipping empty
frames, keys whose transformation raises, and empty outputs. -/
def transform_pairs (m : List (String × List PyVal)) :
    List (String × (TransformedDF × TransformationMetrics)) :=
  m.filterMap (fun p =>
    if p.2.isEmpty then none
    else
      match transform_pair p.2 with
      | .ok (d, met) => if d.value.isEmpty then none else some (p.1, (d, met))
      | .error _ => none)

/-- The transformation stage of the route handler (api/analytics.py): an
error only when the batch result is empty. -/
def transform_stage (m : List (String × List PyVal)) :
    Except String (List (String × (TransformedDF × TransformationMetrics))) :=
  if (transform_pairs m).isEmpty then .error "No valid data after transformation"
  else .ok (transform_pairs m)

end DataTransformer

/-! ## Chart serializer (chart_generator.py) -/

/-- A float as it appears in the emitted chart points: a finite value or an
infinity that escaped a post-sanitization aggregation (`pd.notnull` keeps
infinities; NaN never reaches the emitted list because `dropna` and the
`notnull` filter remove it). -/
inductive MFloat where
  | fin (q : ℚ)
  | posInf
  | negInf
deriving DecidableEq

namespace ChartGenerator

/-- Sequential float accumulation of a sum, saturating at the first
overflowing prefix: once a prefix exceeds the float range, the float sum
stays at that signed infinity (adding finite values to an infinity leaves
it unchanged). -/
def runSum : ℚ → List ℚ → MFloat
  | acc, [] => .fin acc
  | acc, v :: rest =>
    if fMax < acc + v then .posInf
    else if acc + v < -fMax then .negInf
    else runSum (acc + v) rest

/-- Mean aggregation of one daily group, skipping nulls: NaN (dropped
later, modelled `none`) when the group has no valid value; an infinity when
the running float sum overflows; otherwise the finite mean. -/
def groupMean (g : List (Option ℚ)) : Option MFloat :=
  let valid := g.filterMap id
  if valid.isEmpty then none
  else
    match runSum 0 valid with
    | .posInf => some .posInf
    | .negInf => some .negInf
    | .fin t => some (.fin (t / (valid.length : ℚ)))

/-- `df.resample('D').agg({'value': 'mean'}).dropna()`: one row per
distinct day, holding the mean of the valid values of that day; days whose
mean is NaN are dropped. -/
def resampleDaily (rows : List (ℕ × Option ℚ)) : List (ℕ × MFloat) :=
  ((rows.map Prod.fst).dedup).filterMap (fun d =>
    (groupMean ((rows.filter (fun r => decide (r.1 = d))).map Prod.snd)).map
      (fun m => (d, m)))

/-- `ChartGenerator._prepare_time_series`: sanitize the value column; when
the frame has more than `max_points = 100` rows, downsample by daily mean
aggregation; emit the rows whose value is not null (`pd.notnull`, which
keeps infinities). -/
def prepare_time_series (rows : List (ℕ × PyVal)) : List (ℕ × MFloat) :=
  let sanitized : List (ℕ × Option ℚ) :=
    rows.map (fun r => (r.1, sanitize_float r.2))
  if 100 < sanitized.length then resampleDaily sanitized
  else sanitized.filterMap (fun r => r.2.map (fun q => (r.1, MFloat.fin q)))

end ChartGenerator

/-! ## Spec-side comparison definitions and concrete inputs -/

/-- Modelled from the spec words, for comparison with the source embedding:
the radicand of the population standard deviation (divides the squared
deviations by `n`, not `n - 1`) that the spec says the basic-stats record
contains. -/
def popVarSpec (l : List ℚ) : ℚ := devSqSum l / (l.length : ℚ)

/-- Modelled from the spec words, for comparison with the source embedding:
emission of a sanitized time series without any aggregation, as the spec
says happens for series at or below the maximum point count. -/
def specEmitNoAgg (rows : List (ℕ × PyVal)) : List (ℕ × MFloat) :=
  (rows.map (fun r => (r.1, ChartGenerator.sanitize_float r.2))).filterMap
    (fun r => r.2.map (fun q => (r.1, MFloat.fin q)))

/-- The residual standard error (as a radicand) that
`_generate_forecast` sanitizes: `np.std(values - model.predict(X))`. -/
def DataAnalytics.stdErrOf (vals : List ℚ) : Option ℚ :=
  DataAnalytics.npStdRad (vals.zipWith (fun y f => y - f) (fittedLine vals))

/-- 101 chart rows on one single day, each holding the float 1e308. -/
def exC1 : List (ℕ × PyVal) := List.replicate 101 ((0 : ℕ), PyVal.num bigQ)

/-- Ten raw points of which only the first two are valid numbers. -/
def exC2 : List PyVal :=
  PyVal.num 1 :: PyVal.num 2 :: List.replicate 8 PyVal.nan

/-- The float 1e200, inside the sanitizer range. -/
def bigC5 : ℚ := ((10 ^ 200 : ℕ) : ℚ)

/-- Ten valid points of magnitude 1e200 with alternating sign: every point
passes the sanitizer, but the squared regression residuals overflow the
float range, so the residual standard error is NaN. -/
def exC5 : List PyVal :=
  [PyVal.num bigC5, PyVal.num (-bigC5), PyVal.num bigC5,
   PyVal.num (-bigC5), PyVal.num bigC5, PyVal.num (-bigC5),
   PyVal.num bigC5, PyVal.num (-bigC5), PyVal.num bigC5,
   PyVal.num (-bigC5)]

/-- The float 9.5e307: inside the sanitizer range, but twice it overflows
the float range. -/
def qC4 : ℚ := ((95 * 10 ^ 306 : ℕ) : ℚ)

/-- Four clean rows whose value 100 is an IQR outlier. -/
def exC6 : List (ℕ × Option ℚ) :=
  [(0, some 0), (1, some 0), (2, some 0), (3, some 100)]

/-- Ten values alternating between 0 and 2. -/
def exC8 : List ℚ := [0, 2, 0, 2, 0, 2, 0, 2, 0, 2]

/-- 101 chart rows on 101 distinct days, each holding the value 1. -/
def exC10 : List (ℕ × PyVal) :=
  (List.range 101).map (fun d => (d, PyVal.num 1))

/-! ## Helper lemmas -/

theorem sanitizeQ_eq_none (q : ℚ) : sanitizeQ q = none ↔ bigQ < |q| := by
  unfold sanitizeQ
  split_ifs with h <;> simp [h]

theorem sanitizeQ_eq_some (q x : ℚ) : sanitizeQ q = some x ↔ |q| ≤ bigQ ∧ x = q := by
  unfold sanitizeQ
  split_ifs with h
  · simp [not_le.mpr h]
  · simp [not_lt.mp h, eq_comm]

theorem sanitizeQ_of_le {q : ℚ} (h : |q| ≤ bigQ) : sanitizeQ q = some q := by
  unfold sanitizeQ
  rw [if_neg (not_lt.mpr h)]

/-! ## Claim C1 -/

/-- C1 (amended): the four duplicated numeric sanitizers agree everywhere;
the sanitizer returns null exactly on absent, NaN, infinite and
non-convertible inputs and on finite magnitudes above 1e308; every other
finite float passes through unchanged; and no non-null sanitizer output
exceeds 1e308 in magnitude.  The consequence clause of the claim (no value
in any pipeline output is non-finite or above 1e308) holds only for values
whose last processing step is the sanitizer; the chart serializer
aggregates after sanitizing, see the counterexample. -/
theorem C1_sanitizer_contract (v : PyVal) :
    (DataTransformer.safe_numeric v = DataAnalytics.safe_numeric v ∧
     DataExporter.safe_numeric v = DataAnalytics.safe_numeric v ∧
     ChartGenerator.sanitize_float v = DataAnalytics.safe_numeric v) ∧
    (DataAnalytics.safe_numeric v = none ↔
      v = .absent ∨ v = .nan ∨ v = .posInf ∨ v = .negInf ∨ v = .nonNumericStr ∨
      ∃ q, (v = .num q ∨ v = .numStr q) ∧ bigQ < |q|) ∧
    (∀ q, (v = .num q ∨ v = .numStr q) → |q| ≤ bigQ →
      DataAnalytics.safe_numeric v = some q) ∧
    (∀ x, DataAnalytics.safe_numeric v = some x → |x| ≤ bigQ) := by
  obtain _ | _ | _ | _ | _ | q | q := v <;>
    simp only [DataAnalytics.safe_numeric, DataTransformer.safe_numeric,
      DataExporter.safe_numeric, ChartGenerator.sanitize_float] <;>
    simp [sanitizeQ_eq_none, sanitizeQ_eq_some]

unseal Rat.add Rat.mul Rat.inv Rat.sub in
/-- Witness for C1: the sanitizer passes the finite float 3 through. -/
theorem C1_sanitizer_contract_witness :
    DataAnalytics.safe_numeric (PyVal.num 3) = some 3 :=
  (C1_sanitizer_contract (PyVal.num 3)).2.2.1 3 (Or.inl rfl) (by decide)

unseal Rat.add Rat.mul Rat.inv Rat.sub in
/-- Counterexample to C1 as stated: 101 same-day points of value 1e308 all
pass the sanitizer, but the chart serializer then downsamples by daily mean
aggregation, whose float sum overflows, so the emitted chart payload
contains a positive Infinity: a pipeline output value that is not finite. -/
theorem C1_counterexample :
    ChartGenerator.prepare_time_series exC1 = [(0, MFloat.posInf)] ∧
    100 < exC1.length := by decide

theorem bigQ_nonneg : 0 ≤ bigQ := by unfold bigQ; positivity

/-! ## Claim C2 -/

/-- C2 (amended): `analyze_pair` raises the insufficient-data error exactly
when the series has fewer than 10 points BEFORE sanitization; with at least
10 raw points it raises the no-valid-values error exactly when sanitization
removes every point, and succeeds otherwise.  In particular a series of 9
points always fails with the insufficient-data error, and a series of 10
valid points always succeeds. -/
theorem C2_min_points (fc : Bool) (vals0 : List PyVal) :
    (DataAnalytics.analyze_pair fc vals0 = .error "Insufficient data points" ↔
       vals0.length < 10) ∧
    (DataAnalytics.analyze_pair fc vals0 =
        .error "No valid numeric values after cleaning" ↔
       10 ≤ vals0.length ∧ vals0.filterMap DataAnalytics.safe_numeric = []) ∧
    ((∃ r, DataAnalytics.analyze_pair fc vals0 = .ok r) ↔
       10 ≤ vals0.length ∧ vals0.filterMap DataAnalytics.safe_numeric ≠ []) := by
  have hs : ("Insufficient data points" : String) ≠
      "No valid numeric values after cleaning" := by decide
  by_cases h1 : vals0.length < 10
  · simp [DataAnalytics.analyze_pair, h1, hs, Nat.not_le.mpr h1]
  · by_cases h2 : vals0.filterMap DataAnalytics.safe_numeric = []
    · simp [DataAnalytics.analyze_pair, h1, h2, List.isEmpty_iff,
        Nat.not_lt.mp h1, hs.symm]
    · simp [DataAnalytics.analyze_pair, h1, h2, List.isEmpty_iff,
        Nat.not_lt.mp h1]

unseal Rat.add Rat.mul Rat.inv Rat.sub in
/-- Witness for C2: a series of exactly 9 points fails with the
insufficient-data error. -/
theorem C2_min_points_witness :
    DataAnalytics.analyze_pair true (List.replicate 9 (PyVal.num 1)) =
      .error "Insufficient data points" :=
  ((C2_min_points true (List.replicate 9 (PyVal.num 1))).1).mpr (by decide)

unseal Rat.add Rat.mul Rat.inv Rat.sub in
/-- Counterexample to C2 as stated: a series of 10 raw points of which only
2 survive sanitization succeeds, even though fewer than 10 valid points
remain after sanitization. -/
theorem C2_counterexample :
    exC2.length = 10 ∧
    (exC2.filterMap DataAnalytics.safe_numeric).length = 2 ∧
    (DataAnalytics.analyze_pair true exC2).toOption.isSome = true := by
  refine ⟨by decide, by decide, ?_⟩
  decide

/-! ## Claim C4 -/

/-- C4 (amended): the reported `total_growth` equals `(last - first) / first`
whenever the endpoints pass the sanitizer, `first` is nonzero, the float
subtraction `last - first` does not overflow, and the quotient passes the
sanitizer; it is null when `first = 0`, when either endpoint fails the
sanitizer, or when the float subtraction overflows (the difference exceeds
the largest finite double in magnitude, so the program divides an infinity
and sanitizes the quotient to null). -/
theorem C4_total_growth (vals : List ℚ) (v0 vl : ℚ)
    (h0 : vals.head? = some v0) (hl : vals.getLast? = some vl) :
    (|v0| ≤ bigQ → |vl| ≤ bigQ → v0 ≠ 0 → |vl - v0| ≤ fMax →
       |(vl - v0) / v0| ≤ bigQ →
       (DataAnalytics.calculate_growth_metrics vals).total_growth =
         some ((vl - v0) / v0)) ∧
    (v0 = 0 →
       (DataAnalytics.calculate_growth_metrics vals).total_growth = none) ∧
    (bigQ < |v0| ∨ bigQ < |vl| →
       (DataAnalytics.calculate_growth_metrics vals).total_growth = none) ∧
    (fMax < |vl - v0| →
       (DataAnalytics.calculate_growth_metrics vals).total_growth = none) := by
  cases vals with
  | nil => cases h0
  | cons a t =>
    have ha : a = v0 := by simpa using h0
    subst ha
    have hlast : (a :: t).getLastD 0 = vl := by
      rw [List.getLastD_eq_getLast?, hl]
      rfl
    refine ⟨?_, ?_, ?_, ?_⟩
    · intro hb0 hbl hne hdf hq
      simp only [DataAnalytics.calculate_growth_metrics, hlast]
      rw [sanitizeQ_of_le hb0, sanitizeQ_of_le hbl]
      simp only [DataAnalytics.safe_division, if_neg hne]
      rw [if_neg (not_lt.mpr hdf), sanitizeQ_of_le hq]
    · intro h0z
      subst h0z
      simp only [DataAnalytics.calculate_growth_metrics, hlast]
      rw [sanitizeQ_of_le (by simpa using bigQ_nonneg)]
      cases hsl : sanitizeQ vl <;>
        simp [DataAnalytics.safe_division]
    · intro hb
      rcases hb with hb | hb
      · have h : sanitizeQ a = none := (sanitizeQ_eq_none a).mpr hb
        simp [DataAnalytics.calculate_growth_metrics, h]
      · have h : sanitizeQ vl = none := (sanitizeQ_eq_none vl).mpr hb
        cases hsf : sanitizeQ a <;>
          simp [DataAnalytics.calculate_growth_metrics, hsf,
            List.getLastD_eq_getLast?, hl, h]
    · intro hdf
      cases hsf : sanitizeQ a with
      | none => simp [DataAnalytics.calculate_growth_metrics, hsf]
      | some x =>
        obtain ⟨-, rfl⟩ := (sanitizeQ_eq_some a x).mp hsf
        cases hsl : sanitizeQ vl with
        | none =>
          simp [DataAnalytics.calculate_growth_metrics, hsf,
            List.getLastD_eq_getLast?, hl, hsl]
        | some y =>
          obtain ⟨-, rfl⟩ := (sanitizeQ_eq_some vl y).mp hsl
          simp [DataAnalytics.calculate_growth_metrics, hsf,
            List.getLastD_eq_getLast?, hl, hsl, hdf]

unseal Rat.add Rat.mul Rat.inv Rat.sub in
/-- Witness for C4: on the series `[1, 3]` the total growth is `2`. -/
theorem C4_total_growth_witness :
    (DataAnalytics.calculate_growth_metrics [1, 3]).total_growth = some 2 := by
  have h := (C4_total_growth [1, 3] 1 3 rfl rfl).1 (by decide) (by decide)
    (by decide) (by decide) (by decide)
  norm_num at h
  exact h

unseal Rat.add Rat.mul Rat.inv Rat.sub in
/-- Counterexample to C4 as stated: on the series `[-9.5e307, 9.5e307]` both
endpoints pass the sanitizer, the first value is nonzero and the exact
quotient is `-2` (well within range), yet `total_growth` is null, because
the float subtraction `last - first = 1.9e308` overflows to Infinity before
the division. -/
theorem C4_counterexample :
    |(-qC4 : ℚ)| ≤ bigQ ∧ |qC4| ≤ bigQ ∧ (-qC4 : ℚ) ≠ 0 ∧
    (qC4 - -qC4) / -qC4 = -2 ∧
    (DataAnalytics.calculate_growth_metrics [-qC4, qC4]).total_growth =
      none := by
  refine ⟨by decide, by decide, by decide, by decide, ?_⟩
  decide

/-! ## Claim C7 -/

/-- C7: in every batch operation (cleaner, transformer, statistics), a key
whose per-series processing fails is dropped from the output while every
other key maps to exactly what it would map to if the failing series were
absent; the batch function itself always returns (possibly empty), and each
of the three surrounding route-handler stages (cleaning, transformation,
analysis) fails exactly when its batch result is empty. -/
theorem C7_batch_isolation :
    (∀ (l1 l2 : List (String × List (ℕ × Option ℚ))) (k : String) bad,
       DataCleaner.cleanKept bad = false →
       DataCleaner.clean_pairs (l1 ++ (k, bad) :: l2) =
         DataCleaner.clean_pairs (l1 ++ l2)) ∧
    (∀ (fc : Bool) (l1 l2 : List (String × List PyVal)) (k : String) bad,
       DataAnalytics.analyzeKept fc bad = false →
       DataAnalytics.analyze_pairs fc (l1 ++ (k, bad) :: l2) =
         DataAnalytics.analyze_pairs fc (l1 ++ l2)) ∧
    (∀ (l1 l2 : List (String × List PyVal)) (k : String) bad,
       DataTransformer.transformKept bad = false →
       DataTransformer.transform_pairs (l1 ++ (k, bad) :: l2) =
         DataTransformer.transform_pairs (l1 ++ l2)) ∧
    (∀ m, (∃ e, DataCleaner.clean_stage m = .error e) ↔
       DataCleaner.clean_pairs m = []) ∧
    (∀ fc m, (∃ e, DataAnalytics.analyze_stage fc m = .error e) ↔
       DataAnalytics.analyze_pairs fc m = []) ∧
    (∀ m, (∃ e, DataTransformer.transform_stage m = .error e) ↔
       DataTransformer.transform_pairs m = []) := by
  refine ⟨?_, ?_, ?_, ?_, ?_, ?_⟩
  · intro l1 l2 k bad h
    unfold DataCleaner.cleanKept at h
    unfold DataCleaner.clean_pairs
    rw [List.filterMap_append, List.filterMap_append, List.filterMap_cons]
    cases hc : DataCleaner.clean_pair bad with
    | ok p =>
      rw [hc] at h
      simp only [Bool.not_eq_false', List.isEmpty_iff] at h
      simp [hc, h]
    | error e => simp [hc]
  · intro fc l1 l2 k bad h
    unfold DataAnalytics.analyzeKept at h
    unfold DataAnalytics.analyze_pairs
    rw [List.filterMap_append, List.filterMap_append, List.filterMap_cons]
    by_cases he : bad.isEmpty
    · simp [he]
    · rw [if_neg he] at h
      cases ha : DataAnalytics.analyze_pair fc bad with
      | ok r => rw [ha] at h; simp at h
      | error e => simp [he, ha]
  · intro l1 l2 k bad h
    unfold DataTransformer.transformKept at h
    unfold DataTransformer.transform_pairs
    rw [List.filterMap_append, List.filterMap_append, List.filterMap_cons]
    by_cases he : bad.isEmpty
    · simp [he]
    · rw [if_neg he] at h
      cases ha : DataTransformer.transform_pair bad with
      | ok p =>
        rw [ha] at h
        simp only [Bool.not_eq_false', List.isEmpty_iff] at h
        simp [he, ha, h]
      | error e => simp [he, ha]
  · intro m
    unfold DataCleaner.clean_stage
    by_cases h : (DataCleaner.clean_pairs m).isEmpty
    · simp [h, List.isEmpty_iff.mp h]
    · simp only [List.isEmpty_iff] at h
      simp [List.isEmpty_eq_false_iff_exists_mem.mpr, h]
  · intro fc m
    unfold DataAnalytics.analyze_stage
    by_cases h : (DataAnalytics.analyze_pairs fc m).isEmpty
    · simp [h, List.isEmpty_iff.mp h]
    · simp only [List.isEmpty_iff] at h
      simp [h]
  · intro m
    unfold DataTransformer.transform_stage
    by_cases h : (DataTransformer.transform_pairs m).isEmpty
    · simp [h, List.isEmpty_iff.mp h]
    · simp only [List.isEmpty_iff] at h
      simp [h]

/-- Witness for C7: dropping a failing key (here an empty series, rejected
by the minimum-record check) leaves the rest of the batch unchanged. -/
theorem C7_batch_isolation_witness :
    DataCleaner.clean_pairs
        [("a", [(0, some 1), (1, some 2), (2, some 3)]), ("b", [])] =
      DataCleaner.clean_pairs [("a", [(0, some 1), (1, some 2), (2, some 3)])] := by
  have h := C7_batch_isolation.1
    [("a", [(0, some 1), (1, some 2), (2, some 3)])] [] "b" [] (by decide)
  simpa using h

/-! ## Claim C9 -/

/-- C9: the transformer trend direction is `unknown` exactly when the
sanitized regression slope is null; with a defined slope and a defined
overall growth rate `g`, it is `stable` when `|g|` is below the 5%
threshold, `increasing` when `|g| ≥ 5%` and the slope is positive, and
`decreasing` when `|g| ≥ 5%` and the slope is negative. -/
theorem C9_trend_direction (vals : List ℚ) (ma7l ma30l : Option ℚ) :
    (DataAnalytics.slopeOf vals = none →
       (DataTransformer.calculate_trend_metrics vals ma7l ma30l).trend_direction =
         TrendDirection.unknown) ∧
    (∀ s g, DataAnalytics.slopeOf vals = some s →
       (DataTransformer.calculate_trend_metrics vals ma7l ma30l).growth_rate =
         some g →
       ((|g| < 1 / 20 →
           (DataTransformer.calculate_trend_metrics vals ma7l ma30l).trend_direction =
             TrendDirection.stable) ∧
        (1 / 20 ≤ |g| → 0 < s →
           (DataTransformer.calculate_trend_metrics vals ma7l ma30l).trend_direction =
             TrendDirection.increasing) ∧
        (1 / 20 ≤ |g| → s < 0 →
           (DataTransformer.calculate_trend_metrics vals ma7l ma30l).trend_direction =
             TrendDirection.decreasing))) := by
  cases vals with
  | nil =>
    refine ⟨fun _ => rfl, ?_⟩
    intro s g _ hg
    cases hg
  | cons v0 t =>
    constructor
    · intro h
      simp [DataTransformer.calculate_trend_metrics, h]
    · intro s g hs hg
      simp only [DataTransformer.calculate_trend_metrics] at hg ⊢
      rw [hs]
      rw [hg]
      simp only [Option.getD_some]
      refine ⟨?_, ?_, ?_⟩
      · intro hlt
        rw [if_pos hlt]
      · intro hge hpos
        rw [if_neg (not_lt.mpr hge), if_pos hpos]
      · intro hge hneg
        rw [if_neg (not_lt.mpr hge), if_neg (not_lt.mpr (le_of_lt hneg))]

unseal Rat.add Rat.mul Rat.inv Rat.sub in
/-- Witness for C9: the series `[10, 20, 30]` has slope 1 and growth rate
2, hence direction `increasing`. -/
theorem C9_trend_direction_witness :
    (DataTransformer.calculate_trend_metrics [10, 20, 30] none none).trend_direction =
      TrendDirection.increasing := by
  have h := ((C9_trend_direction [10, 20, 30] none none).2 10 2
    (by decide) (by decide)).2.1 (by decide) (by decide)
  exact h

/-! ## Claim C10 -/

/-- C10 (amended): a series at or below the 100-point maximum is emitted
without aggregation; a longer series is downsampled by daily mean
aggregation, which bounds the emitted point count by the number of distinct
days in the series, not by the configured maximum. -/
theorem C10_downsampling :
    (∀ rows : List (ℕ × PyVal), rows.length ≤ 100 →
       ChartGenerator.prepare_time_series rows = specEmitNoAgg rows) ∧
    (∀ rows : List (ℕ × PyVal), 100 < rows.length →
       (ChartGenerator.prepare_time_series rows).length ≤
         ((rows.map Prod.fst).dedup).length) := by
  constructor
  · intro rows h
    unfold ChartGenerator.prepare_time_series specEmitNoAgg
    rw [if_neg]
    simp only [List.length_map]
    exact Nat.not_lt.mpr h
  · intro rows h
    unfold ChartGenerator.prepare_time_series
    rw [if_pos (by simpa using h)]
    unfold ChartGenerator.resampleDaily
    calc (((rows.map fun r => (r.1, ChartGenerator.sanitize_float r.2)).map
            Prod.fst).dedup.filterMap _).length
        ≤ ((rows.map fun r => (r.1, ChartGenerator.sanitize_float r.2)).map
            Prod.fst).dedup.length := List.length_filterMap_le _ _
      _ = ((rows.map Prod.fst).dedup).length := by
          simp [List.map_map, Function.comp_def]

/-- Witness for C10: a single-row series is emitted as-is. -/
theorem C10_downsampling_witness :
    ChartGenerator.prepare_time_series [(0, PyVal.num 5)] =
      specEmitNoAgg [(0, PyVal.num 5)] :=
  C10_downsampling.1 [(0, PyVal.num 5)] (by decide)

unseal Rat.add Rat.mul Rat.inv Rat.sub in
/-- Counterexample to C10 as stated: 101 points on 101 distinct days exceed
the maximum, are daily-mean resampled, and still emit 101 > 100 points. -/
theorem C10_counterexample :
    100 < exC10.length ∧
    (ChartGenerator.prepare_time_series exC10).length = 101 := by decide

/-! ## Claim C3 -/

theorem floorToNat_le {x : ℚ} (hx : 0 ≤ x) : ((⌊x⌋.toNat : ℕ) : ℚ) ≤ x := by
  have h0 : (0 : ℤ) ≤ ⌊x⌋ := Int.floor_nonneg.mpr hx
  have hcast : ((⌊x⌋.toNat : ℕ) : ℚ) = ((⌊x⌋ : ℤ) : ℚ) := by
    rw [show ((⌊x⌋.toNat : ℕ) : ℚ) = ((((⌊x⌋.toNat : ℕ) : ℤ)) : ℚ) by push_cast; ring,
      Int.toNat_of_nonneg h0]
  rw [hcast]
  exact Int.floor_le x

theorem lt_floorToNat_add_one {x : ℚ} (hx : 0 ≤ x) :
    x < ((⌊x⌋.toNat : ℕ) : ℚ) + 1 := by
  have h0 : (0 : ℤ) ≤ ⌊x⌋ := Int.floor_nonneg.mpr hx
  have hcast : ((⌊x⌋.toNat : ℕ) : ℚ) = ((⌊x⌋ : ℤ) : ℚ) := by
    rw [show ((⌊x⌋.toNat : ℕ) : ℚ) = ((((⌊x⌋.toNat : ℕ) : ℤ)) : ℚ) by push_cast; ring,
      Int.toNat_of_nonneg h0]
  rw [hcast]
  exact Int.lt_floor_add_one x

theorem sorted_getD_mono {s : List ℚ} (hs : s.Sorted (· ≤ ·)) {i j : ℕ}
    (hij : i ≤ j) (hj : j < s.length) : s.getD i 0 ≤ s.getD j 0 := by
  have hi : i < s.length := Nat.lt_of_le_of_lt hij hj
  rw [List.getD_eq_getElem s 0 hi, List.getD_eq_getElem s 0 hj]
  rcases eq_or_lt_of_le hij with rfl | hlt
  · exact le_refl _
  · simpa [List.get_eq_getElem] using
      hs.rel_get_of_lt (a := ⟨i, hi⟩) (b := ⟨j, hj⟩) (Fin.mk_lt_mk.mpr hlt)

theorem quantile_def (vals : List ℚ) (p : ℚ) :
    DataCleaner.quantile vals p =
      (List.insertionSort (· ≤ ·) vals).getD
          ((⌊((vals.length : ℚ) - 1) * p⌋).toNat) 0 +
        (((vals.length : ℚ) - 1) * p -
            (((⌊((vals.length : ℚ) - 1) * p⌋).toNat : ℕ) : ℚ)) *
          ((List.insertionSort (· ≤ ·) vals).getD
              ((⌊((vals.length : ℚ) - 1) * p⌋).toNat + 1)
              ((List.insertionSort (· ≤ ·) vals).getD
                ((⌊((vals.length : ℚ) - 1) * p⌋).toNat) 0) -
            (List.insertionSort (· ≤ ·) vals).getD
              ((⌊((vals.length : ℚ) - 1) * p⌋).toNat) 0) := rfl

theorem quantile_mono (vals : List ℚ) (hne : vals ≠ [])
    {p q : ℚ} (hp0 : 0 ≤ p) (hpq : p ≤ q) (hq1 : q ≤ 1) :
    DataCleaner.quantile vals p ≤ DataCleaner.quantile vals q := by
  have hs : (List.insertionSort (· ≤ ·) vals).Sorted (· ≤ ·) :=
    List.sorted_insertionSort _ _
  have hlen : (List.insertionSort (· ≤ ·) vals).length = vals.length :=
    (List.perm_insertionSort _ vals).length_eq
  rw [quantile_def, quantile_def]
  set s := List.insertionSort (· ≤ ·) vals with hsdef
  set n := vals.length with hndef
  have hn : 1 ≤ n := List.length_pos.mpr hne
  have hn1 : (0 : ℚ) ≤ (n : ℚ) - 1 := by
    have h1 : (1 : ℚ) ≤ (n : ℚ) := by exact_mod_cast hn
    linarith
  set xp : ℚ := ((n : ℚ) - 1) * p with hxp
  set xq : ℚ := ((n : ℚ) - 1) * q with hxq
  have hxp0 : 0 ≤ xp := mul_nonneg hn1 hp0
  have hxq0 : 0 ≤ xq := mul_nonneg hn1 (le_trans hp0 hpq)
  have hxpq : xp ≤ xq := mul_le_mul_of_nonneg_left hpq hn1
  have hxqle : xq ≤ (n : ℚ) - 1 := by
    calc xq ≤ ((n : ℚ) - 1) * 1 := mul_le_mul_of_nonneg_left hq1 hn1
      _ = (n : ℚ) - 1 := mul_one _
  set i := (⌊xp⌋).toNat with hidef
  set j := (⌊xq⌋).toNat with hjdef
  have hi_le : (i : ℚ) ≤ xp := floorToNat_le hxp0
  have hi_lt : xp < (i : ℚ) + 1 := lt_floorToNat_add_one hxp0
  have hj_le : (j : ℚ) ≤ xq := floorToNat_le hxq0
  have hij : i ≤ j := Int.toNat_le_toNat (Int.floor_le_floor hxpq)
  have hjn : j + 1 ≤ n := by
    have h2 : (j : ℚ) + 1 ≤ (n : ℚ) := by linarith [le_trans hj_le hxqle]
    exact_mod_cast h2
  have hjs : j < s.length := by rw [hlen]; omega
  rcases eq_or_lt_of_le hij with heq | hlt
  · -- same interpolation cell: compare the fractional parts
    rw [← heq]
    have hd : 0 ≤ s.getD (i + 1) (s.getD i 0) - s.getD i 0 := by
      by_cases hr : i + 1 < s.length
      · have hmono := sorted_getD_mono hs (Nat.le_succ i) hr
        rw [List.getD_eq_getElem s _ hr]
        rw [List.getD_eq_getElem s 0 hr] at hmono
        linarith
      · rw [List.getD_eq_default s _ (not_lt.mp hr)]
        simp
    have hstep := mul_le_mul_of_nonneg_right
      (sub_le_sub_right hxpq ((i : ℕ) : ℚ)) hd
    linarith
  · -- distinct cells: pass through the sorted entries between them
    have hi1j : i + 1 ≤ j := hlt
    have hi1s : i + 1 < s.length := by rw [hlen]; omega
    have hdp : s.getD i 0 ≤ s.getD (i + 1) 0 := sorted_getD_mono hs (Nat.le_succ i) hi1s
    have heq2 : s.getD (i + 1) (s.getD i 0) = s.getD (i + 1) 0 := by
      rw [List.getD_eq_getElem s _ hi1s, List.getD_eq_getElem s 0 hi1s]
    have ht1 : xp - (i : ℚ) ≤ 1 := by linarith
    have hQp : s.getD i 0 + (xp - (i : ℚ)) * (s.getD (i + 1) (s.getD i 0) - s.getD i 0) ≤
        s.getD (i + 1) 0 := by
      rw [heq2]
      have := mul_le_mul_of_nonneg_right ht1 (sub_nonneg.mpr hdp)
      linarith
    have hmid : s.getD (i + 1) 0 ≤ s.getD j 0 := sorted_getD_mono hs hi1j hjs
    have hdq : 0 ≤ s.getD (j + 1) (s.getD j 0) - s.getD j 0 := by
      by_cases hr : j + 1 < s.length
      · have hmono := sorted_getD_mono hs (Nat.le_succ j) hr
        rw [List.getD_eq_getElem s _ hr]
        rw [List.getD_eq_getElem s 0 hr] at hmono
        linarith
      · rw [List.getD_eq_default s _ (not_lt.mp hr)]
        simp
    have hQq : s.getD j 0 ≤
        s.getD j 0 + (xq - (j : ℚ)) * (s.getD (j + 1) (s.getD j 0) - s.getD j 0) := by
      have := mul_nonneg (by linarith : 0 ≤ xq - (j : ℚ)) hdq
      linarith
    linarith

theorem lowerBound_le_upperBound (vals : List ℚ) (hne : vals ≠ []) :
    DataCleaner.lowerBound vals ≤ DataCleaner.upperBound vals := by
  have h := quantile_mono vals hne (p := 1 / 4) (q := 3 / 4)
    (by norm_num) (by norm_num) (by norm_num)
  unfold DataCleaner.lowerBound DataCleaner.upperBound
  linarith

/-- C3: the outlier step preserves the row count; every surviving value
lies within the IQR bounds `[Q1 - 1.5·IQR, Q3 + 1.5·IQR]`; the recorded
outlier count is the number of input values strictly outside the bounds;
and each value is clamped in place to the nearest bound (never removed),
with its timestamp preserved. -/
theorem C3_outlier_clipping (rows : List (ℕ × Option ℚ)) :
    (DataCleaner.handle_outliers rows).1.length = rows.length ∧
    (∀ t v, (t, some v) ∈ (DataCleaner.handle_outliers rows).1 →
       DataCleaner.lowerBound (rows.filterMap Prod.snd) ≤ v ∧
       v ≤ DataCleaner.upperBound (rows.filterMap Prod.snd)) ∧
    (DataCleaner.handle_outliers rows).2 =
      (rows.filterMap Prod.snd).countP (fun v =>
        decide (¬ (DataCleaner.lowerBound (rows.filterMap Prod.snd) ≤ v ∧
                   v ≤ DataCleaner.upperBound (rows.filterMap Prod.snd)))) ∧
    (∀ k, ((DataCleaner.handle_outliers rows).1.getD k (0, none)).1 =
       (rows.getD k (0, none)).1) ∧
    (∀ k v, (rows.getD k (0, none)).2 = some v →
       ((DataCleaner.handle_outliers rows).1.getD k (0, none)).2 =
         some (if v < DataCleaner.lowerBound (rows.filterMap Prod.snd) then
                 DataCleaner.lowerBound (rows.filterMap Prod.snd)
               else if DataCleaner.upperBound (rows.filterMap Prod.snd) < v then
                 DataCleaner.upperBound (rows.filterMap Prod.snd)
               else v)) := by
  set vals := rows.filterMap Prod.snd with hvals
  set lo := DataCleaner.lowerBound vals with hlo
  set hi := DataCleaner.upperBound vals with hhi
  refine ⟨?_, ?_, ?_, ?_, ?_⟩
  · simp [DataCleaner.handle_outliers]
  · intro t v hmem
    simp only [DataCleaner.handle_outliers, List.mem_map] at hmem
    obtain ⟨r, hr, hfr⟩ := hmem
    obtain ⟨ht, hv⟩ := Prod.mk.injEq .. ▸ hfr
    rw [Option.map_eq_some'] at hv
    obtain ⟨w, hw, hclamp⟩ := hv
    have hwv : w ∈ vals := by
      rw [hvals]
      exact List.mem_filterMap.mpr ⟨r, hr, hw⟩
    have hne : vals ≠ [] := by
      intro h0
      rw [h0] at hwv
      cases hwv
    have hlh : lo ≤ hi := lowerBound_le_upperBound vals hne
    by_cases h1 : w < lo
    · rw [if_pos h1] at hclamp
      exact hclamp ▸ ⟨le_refl lo, hlh⟩
    · rw [if_neg h1] at hclamp
      by_cases h2 : hi < w
      · rw [if_pos h2] at hclamp
        exact hclamp ▸ ⟨hlh, le_refl hi⟩
      · rw [if_neg h2] at hclamp
        exact hclamp ▸ ⟨not_lt.mp h1, not_lt.mp h2⟩
  · simp only [DataCleaner.handle_outliers]
    have hfun : (fun v => decide (¬ (lo ≤ v ∧ v ≤ hi))) =
        (fun v => decide (v < lo) || decide (hi < v)) := by
      funext v
      have hiff : (¬ (lo ≤ v ∧ v ≤ hi)) ↔ (v < lo ∨ hi < v) := by
        rw [not_and_or, not_le, not_le]
      rw [decide_eq_decide.mpr hiff, Bool.decide_or]
    rw [hfun]
  · intro k
    simp only [DataCleaner.handle_outliers]
    rw [List.getD_eq_getElem?_getD, List.getD_eq_getElem?_getD, List.getElem?_map]
    cases rows[k]? <;> simp
  · intro k v hv
    rw [List.getD_eq_getElem?_getD] at hv
    simp only [DataCleaner.handle_outliers]
    rw [List.getD_eq_getElem?_getD, List.getElem?_map]
    cases hk : rows[k]? with
    | none => rw [hk] at hv; cases hv
    | some r =>
      rw [hk] at hv
      simp only [Option.getD_some] at hv
      simp [hv]

unseal Rat.add Rat.mul Rat.inv Rat.sub in
/-- Witness for C3: on `[0, 0, 0, 100]` the bounds are `[-37.5, 62.5]`, the
outlier 100 is clamped to 62.5, and exactly one outlier is counted. -/
theorem C3_outlier_clipping_witness :
    DataCleaner.lowerBound [0, 0, 0, 100] ≤ (0 : ℚ) ∧
    (0 : ℚ) ≤ DataCleaner.upperBound [0, 0, 0, 100] := by
  have h := (C3_outlier_clipping
    [(0, some 0), (1, some 0), (2, some 0), (3, some 100)]).2.1 0 0 (by decide)
  simpa using h

/-! ## Claim C8 -/

theorem listMin_eq_none (l : List ℚ) : listMin l = none ↔ l = [] := by
  cases l <;> simp [listMin]

theorem listMax_eq_none (l : List ℚ) : listMax l = none ↔ l = [] := by
  cases l <;> simp [listMax]

theorem listMin_spec {l : List ℚ} {m : ℚ} (h : listMin l = some m) :
    m ∈ l ∧ ∀ v ∈ l, m ≤ v := by
  induction l generalizing m with
  | nil => cases h
  | cons v t ih =>
    cases ht : listMin t with
    | none =>
      have : t = [] := (listMin_eq_none t).mp ht
      subst this
      simp [listMin] at h
      subst h
      simp
    | some mt =>
      obtain ⟨hmem, hle⟩ := ih ht
      simp only [listMin, ht] at h
      obtain rfl := Option.some_inj.mp h
      constructor
      · rcases min_choice v mt with hc | hc <;> rw [hc]
        · simp
        · exact List.mem_cons_of_mem v hmem
      · intro x hx
        rcases List.mem_cons.mp hx with rfl | hxt
        · exact min_le_left _ _
        · exact le_trans (min_le_right _ _) (hle x hxt)

theorem listMax_spec {l : List ℚ} {m : ℚ} (h : listMax l = some m) :
    m ∈ l ∧ ∀ v ∈ l, v ≤ m := by
  induction l generalizing m with
  | nil => cases h
  | cons v t ih =>
    cases ht : listMax t with
    | none =>
      have : t = [] := (listMax_eq_none t).mp ht
      subst this
      simp [listMax] at h
      subst h
      simp
    | some mt =>
      obtain ⟨hmem, hle⟩ := ih ht
      simp only [listMax, ht] at h
      obtain rfl := Option.some_inj.mp h
      constructor
      · rcases max_choice v mt with hc | hc <;> rw [hc]
        · simp
        · exact List.mem_cons_of_mem v hmem
      · intro x hx
        rcases List.mem_cons.mp hx with rfl | hxt
        · exact le_max_left _ _
        · exact le_trans (hle x hxt) (le_max_right _ _)

theorem abs_listSum_le (l : List ℚ) : |l.sum| ≤ (l.map (fun v => |v|)).sum := by
  induction l with
  | nil => simp
  | cons v t ih =>
    simp only [List.sum_cons, List.map_cons]
    exact (abs_add _ _).trans (by linarith)

theorem listMean_abs_le (l : List ℚ) (hne : l ≠ []) (hb : ∀ v ∈ l, |v| ≤ bigQ) :
    |l.sum / (l.length : ℚ)| ≤ bigQ := by
  have hn : 0 < l.length := List.length_pos.mpr hne
  have hnq : (0 : ℚ) < (l.length : ℚ) := by exact_mod_cast hn
  have h1 : |l.sum| ≤ (l.length : ℚ) * bigQ := by
    calc |l.sum| ≤ (l.map (fun v => |v|)).sum := abs_listSum_le l
      _ ≤ (l.map (fun v => |v|)).length • bigQ := by
          refine List.sum_le_card_nsmul _ _ ?_
          intro x hx
          obtain ⟨v, hv, rfl⟩ := List.mem_map.mp hx
          exact hb v hv
      _ = (l.length : ℚ) * bigQ := by
          rw [List.length_map, nsmul_eq_mul]
  rw [abs_div, abs_of_pos hnq, div_le_iff₀ hnq]
  linarith

/-- C8 (amended): for a nonempty series of sanitizer-range values, the
basic-stats record holds: the least element as `min`, the greatest as
`max`, the final element as `last_value` (none of these can be null); the
exact mean whenever the running float accumulation of the sum does not
overflow, and a null mean when it does; and the SAMPLE standard deviation
pandas computes with `ddof = 1` — null for a single point while the other
statistics are still returned, and satisfying
`std² · (n - 1) = Σ (v - mean)²` (the population version would divide by
`n`).  The median, when non-null, is within the sanitizer range. -/
theorem C8_basic_stats (vals : List ℚ) (hne : vals ≠ [])
    (hb : ∀ v ∈ vals, |v| ≤ bigQ) :
    (∃ m, (DataAnalytics.calculate_basic_stats vals).min = some m ∧
       m ∈ vals ∧ ∀ v ∈ vals, m ≤ v) ∧
    (∃ m, (DataAnalytics.calculate_basic_stats vals).max = some m ∧
       m ∈ vals ∧ ∀ v ∈ vals, v ≤ m) ∧
    (DataAnalytics.calculate_basic_stats vals).last_value = vals.getLast? ∧
    (floatSumOverflows vals = false →
       (DataAnalytics.calculate_basic_stats vals).mean =
         some (vals.sum / (vals.length : ℚ))) ∧
    (floatSumOverflows vals = true →
       (DataAnalytics.calculate_basic_stats vals).mean = none) ∧
    (vals.length = 1 → (DataAnalytics.calculate_basic_stats vals).std = none) ∧
    (∀ s, (DataAnalytics.calculate_basic_stats vals).std = some s →
       s * ((vals.length : ℚ) - 1) = devSqSum vals) ∧
    (∀ m, (DataAnalytics.calculate_basic_stats vals).median = some m →
       |m| ≤ bigQ) := by
  have hemp : vals.isEmpty = false := by
    rw [List.isEmpty_eq_false_iff_exists_mem]
    obtain ⟨v, hv⟩ := List.exists_mem_of_ne_nil vals hne
    exact ⟨v, hv⟩
  simp only [DataAnalytics.calculate_basic_stats, hemp, Bool.false_eq_true,
    if_false]
  refine ⟨?_, ?_, ?_, ?_, ?_, ?_, ?_, ?_⟩
  · cases hm : listMin vals with
    | none => exact absurd ((listMin_eq_none vals).mp hm) hne
    | some m =>
      obtain ⟨hmem, hle⟩ := listMin_spec hm
      exact ⟨m, by simp [hm, sanitizeQ_of_le (hb m hmem)], hmem, hle⟩
  · cases hm : listMax vals with
    | none => exact absurd ((listMax_eq_none vals).mp hm) hne
    | some m =>
      obtain ⟨hmem, hle⟩ := listMax_spec hm
      exact ⟨m, by simp [hm, sanitizeQ_of_le (hb m hmem)], hmem, hle⟩
  · cases hl : vals.getLast? with
    | none => exact absurd (List.getLast?_eq_none_iff.mp hl) hne
    | some v =>
      have hv : v ∈ vals := List.mem_of_mem_getLast? hl
      simp [hl, sanitizeQ_of_le (hb v hv)]
  · intro hov
    unfold DataAnalytics.sanMean
    rw [hov, if_neg Bool.false_ne_true,
      sanitizeQ_of_le (listMean_abs_le vals hne hb)]
  · intro hov
    unfold DataAnalytics.sanMean
    rw [hov, if_pos rfl]
  · intro h1
    unfold DataAnalytics.sanStdRad
    rw [if_pos (by omega)]
  · intro s hs
    unfold DataAnalytics.sanStdRad sanitizeSqrtRad at hs
    split_ifs at hs with h1 h2 h3 h4 h5
    obtain rfl := Option.some_inj.mp hs
    have hn2 : 2 ≤ vals.length := by omega
    have hne1 : ((vals.length : ℚ) - 1) ≠ 0 := by
      have h2le : (2 : ℚ) ≤ (vals.length : ℚ) := by exact_mod_cast hn2
      intro hz
      rw [sub_eq_zero] at hz
      rw [hz] at h2le
      norm_num at h2le
    rw [div_mul_cancel₀ _ hne1]
  · intro m hm
    simp only [DataAnalytics.sanMedian] at hm
    by_cases h1 : vals.length % 2 = 1
    · rw [if_pos h1] at hm
      obtain ⟨hle, heq⟩ := (sanitizeQ_eq_some _ _).mp hm
      rw [heq]
      exact hle
    · rw [if_neg h1] at hm
      by_cases h2 : fMax <
          |(List.insertionSort (· ≤ ·) vals).getD (vals.length / 2 - 1) 0 +
            (List.insertionSort (· ≤ ·) vals).getD (vals.length / 2) 0|
      · rw [if_pos h2] at hm
        cases hm
      · rw [if_neg h2] at hm
        obtain ⟨hle, heq⟩ := (sanitizeQ_eq_some _ _).mp hm
        rw [heq]
        exact hle

unseal Rat.add Rat.mul Rat.inv Rat.sub in
/-- Witness for C8: on `[1, 2, 3]` the record holds mean 2. -/
theorem C8_basic_stats_witness :
    (DataAnalytics.calculate_basic_stats [1, 2, 3]).mean = some 2 := by
  have h := (C8_basic_stats [1, 2, 3] (by decide) (by decide)).2.2.2.1 (by decide)
  norm_num at h
  exact h

unseal Rat.add Rat.mul Rat.inv Rat.sub in
/-- Counterexample to C8 as stated: on ten values alternating 0 and 2 the
stored standard deviation is the sample one, `sqrt (10/9)` (ddof = 1), not
the population one `sqrt 1` the spec asserts (the `std` field holds the
radicand). -/
theorem C8_counterexample :
    (DataAnalytics.calculate_basic_stats exC8).std = some (10 / 9) ∧
    popVarSpec exC8 = 1 ∧
    (DataAnalytics.calculate_basic_stats exC8).std ≠ some (popVarSpec exC8) := by
  refine ⟨by decide, by decide, by decide⟩

/-! ## Claim C5 -/

theorem linfit_eq_none (ys : List ℚ) : linfit ys = none ↔ ys = [] := by
  rcases ys with _ | ⟨y, _ | ⟨z, t⟩⟩ <;> simp [linfit]

theorem generate_forecast_stdErr_none {vals : List ℚ} {b a : ℚ}
    (hlf : linfit vals = some (b, a))
    (h : DataAnalytics.npStdRad (DataAnalytics.residualsOf vals b a) = none) :
    DataAnalytics.generate_forecast vals =
      some ⟨DataAnalytics.predsOf vals b a,
            List.replicate (DataAnalytics.predsOf vals b a).length none,
            List.replicate (DataAnalytics.predsOf vals b a).length none,
            ⟨DataAnalytics.maeOf vals b a, DataAnalytics.rmseOf vals b a, none⟩⟩ := by
  unfold DataAnalytics.generate_forecast
  simp only [hlf]
  rw [h]

theorem generate_forecast_stdErr_some {vals : List ℚ} {b a r : ℚ}
    (hlf : linfit vals = some (b, a))
    (h : DataAnalytics.npStdRad (DataAnalytics.residualsOf vals b a) = some r) :
    DataAnalytics.generate_forecast vals =
      (if (DataAnalytics.predsOf vals b a).any (fun p => p.isNone) then none
       else
         some ⟨DataAnalytics.predsOf vals b a,
               (DataAnalytics.predsOf vals b a).map (fun p? =>
                 p?.bind (fun p =>
                   if DataAnalytics.lowerOut p r then none else some (p, r))),
               (DataAnalytics.predsOf vals b a).map (fun p? =>
                 p?.bind (fun p =>
                   if DataAnalytics.upperOut p r then none else some (p, r))),
               ⟨DataAnalytics.maeOf vals b a, DataAnalytics.rmseOf vals b a,
                some r⟩⟩) := by
  unfold DataAnalytics.generate_forecast
  simp only [hlf]
  rw [h]

/-- C5 (amended): the forecast is entirely omitted (`None`) when the
regression fails (empty input); the stored `std_error` is always the
sanitized residual standard error; when that standard error is undefined
the forecast is NOT omitted — it is returned with its predictions and
error metrics and with null-filled bound lists; for a nonempty series the
forecast is omitted only when the standard error IS defined (and a null
prediction makes the bound arithmetic raise). -/
theorem C5_forecast (vals : List ℚ) :
    (vals = [] → DataAnalytics.generate_forecast vals = none) ∧
    (∀ F, DataAnalytics.generate_forecast vals = some F →
       F.metrics.std_error = DataAnalytics.stdErrOf vals) ∧
    (vals ≠ [] → DataAnalytics.stdErrOf vals = none →
       ∃ P mae rmse, DataAnalytics.generate_forecast vals =
         some ⟨P, List.replicate P.length none, List.replicate P.length none,
               ⟨mae, rmse, none⟩⟩ ∧ P.length = 30) ∧
    (vals ≠ [] → DataAnalytics.generate_forecast vals = none →
       ∃ r, DataAnalytics.stdErrOf vals = some r) := by
  cases hlf : linfit vals with
  | none =>
    have hnil : vals = [] := (linfit_eq_none vals).mp hlf
    subst hnil
    refine ⟨fun _ => rfl, ?_, ?_, ?_⟩
    · intro F hF
      cases hF
    · intro hne
      exact absurd rfl hne
    · intro hne
      exact absurd rfl hne
  | some ba =>
    obtain ⟨b, a⟩ := ba
    have hne : vals ≠ [] := by
      intro h0
      rw [h0] at hlf
      cases hlf
    have hstdeq : DataAnalytics.stdErrOf vals =
        DataAnalytics.npStdRad (DataAnalytics.residualsOf vals b a) := by
      unfold DataAnalytics.stdErrOf DataAnalytics.residualsOf fittedLine
      rw [hlf]
    cases hstd : DataAnalytics.npStdRad (DataAnalytics.residualsOf vals b a) with
    | none =>
      have hgf := generate_forecast_stdErr_none hlf hstd
      refine ⟨fun h0 => absurd h0 hne, ?_, ?_, ?_⟩
      · intro F hF
        rw [hgf] at hF
        obtain rfl := Option.some_inj.mp hF
        rw [hstdeq, hstd]
      · intro _ _
        refine ⟨_, _, _, hgf, ?_⟩
        unfold DataAnalytics.predsOf
        rw [List.length_map, List.length_range]
      · intro _ h0
        rw [hgf] at h0
        cases h0
    | some r =>
      have hgf := generate_forecast_stdErr_some hlf hstd
      by_cases hpn : ((DataAnalytics.predsOf vals b a).any
          (fun p => p.isNone)) = true
      · rw [if_pos hpn] at hgf
        refine ⟨fun h0 => absurd h0 hne, ?_, ?_, ?_⟩
        · intro F hF
          rw [hgf] at hF
          cases hF
        · intro _ hn
          rw [hstdeq, hstd] at hn
          cases hn
        · intro _ _
          exact ⟨r, by rw [hstdeq, hstd]⟩
      · rw [if_neg hpn] at hgf
        refine ⟨fun h0 => absurd h0 hne, ?_, ?_, ?_⟩
        · intro F hF
          rw [hgf] at hF
          obtain rfl := Option.some_inj.mp hF
          rw [hstdeq, hstd]
        · intro _ hn
          rw [hstdeq, hstd] at hn
          cases hn
        · intro _ h0
          rw [hgf] at h0
          cases h0

/-- Witness for C5: on an empty value column the regression raises, so the
forecast is omitted. -/
theorem C5_forecast_witness : DataAnalytics.generate_forecast [] = none :=
  (C5_forecast []).1 rfl

unseal Rat.add Rat.mul Rat.inv Rat.sub in
/-- Counterexample to C5 as stated: on ten sanitizer-range values of
magnitude 1e200 with alternating sign, the squared residuals overflow, the
residual standard error sanitizes to null — and yet `analyze_pair` returns
a forecast, partially populated with null bound lists and null `std_error`,
instead of omitting it. -/
theorem C5_counterexample :
    DataAnalytics.stdErrOf (exC5.filterMap DataAnalytics.safe_numeric) = none ∧
    ((DataAnalytics.analyze_pair true exC5).toOption.bind
        (fun r => r.forecast)).isSome = true ∧
    ((DataAnalytics.analyze_pair true exC5).toOption.bind
        (fun r => r.forecast)).map
        (fun F => (F.metrics.std_error, F.lower_bound, F.upper_bound)) =
      some (none, List.replicate 30 none, List.replicate 30 none) := by
  refine ⟨by decide, by decide, by decide⟩

/-! ## Claim C6 -/

theorem rangeMap_getElem? {α : Type} (f : ℕ → α) (n k : ℕ) :
    ((List.range n).map f)[k]? = if k < n then some (f k) else none := by
  rw [List.getElem?_map]
  by_cases h : k < n
  · rw [List.getElem?_range h, if_pos h]
    rfl
  · rw [if_neg h, List.getElem?_eq_none
      (by simpa [List.length_range] using not_lt.mp h)]
    rfl

theorem rangeMap_getD (f : ℕ → Option ℚ) (n k : ℕ) (hk : k < n) :
    ((List.range n).map f).getD k none = f k := by
  rw [List.getD_eq_getElem?_getD, rangeMap_getElem?, if_pos hk]
  rfl

theorem getD_eq_some_getElem {l : List (Option ℚ)} {k : ℕ} (hk : k < l.length) :
    l[k]? = some (l.getD k none) := by
  rw [List.getD_eq_getElem l none hk, List.getElem?_eq_getElem hk]

theorem getD_some_lt {l : List (Option ℚ)} {j : ℕ} {v : ℚ}
    (h : l.getD j none = some v) : j < l.length := by
  by_contra hj
  rw [List.getD_eq_default l none (not_lt.mp hj)] at h
  cases h

theorem prevValid_self {l : List (Option ℚ)} {k : ℕ} {v : ℚ}
    (h : l.getD k none = some v) : DataCleaner.prevValid l k = some (k, v) := by
  cases k with
  | zero =>
    unfold DataCleaner.prevValid
    rw [h]
    rfl
  | succ k =>
    unfold DataCleaner.prevValid
    rw [h]

theorem prevValid_isSome {l : List (Option ℚ)} {j k : ℕ} {v : ℚ}
    (h : l.getD j none = some v) (hjk : j ≤ k) :
    (DataCleaner.prevValid l k).isSome = true := by
  induction k with
  | zero =>
    obtain rfl : j = 0 := Nat.le_zero.mp hjk
    rw [prevValid_self h]
    rfl
  | succ k ih =>
    cases hk : l.getD (k + 1) none with
    | some w =>
      rw [prevValid_self hk]
      rfl
    | none =>
      have hjk2 : j ≤ k := by
        rcases Nat.lt_or_ge j (k + 1) with hlt | hge
        · omega
        · exfalso
          have hje : j = k + 1 := by omega
          rw [hje, hk] at h
          cases h
      show (match l.getD (k + 1) none with
            | some v => some (k + 1, v)
            | none => DataCleaner.prevValid l k).isSome = true
      rw [hk]
      exact ih hjk2

theorem nextValidAux_isSome : ∀ (m : List (Option ℚ)) (k i : ℕ) (v : ℚ),
    m.getD i none = some v → (DataCleaner.nextValidAux m k).isSome = true := by
  intro m
  induction m with
  | nil =>
    intro k i v h
    rw [List.getD_nil] at h
    cases h
  | cons o rest ih =>
    intro k i v h
    cases o with
    | some w => rfl
    | none =>
      cases i with
      | zero =>
        rw [List.getD_cons_zero] at h
        cases h
      | succ i =>
        rw [List.getD_cons_succ] at h
        exact ih (k + 1) i v h

theorem nextValid_isSome {l : List (Option ℚ)} {k j : ℕ} {v : ℚ}
    (h : l.getD j none = some v) (hkj : k ≤ j) :
    (DataCleaner.nextValid l k).isSome = true := by
  unfold DataCleaner.nextValid
  have hkj2 : k + (j - k) = j := by omega
  have hd : (l.drop k).getD (j - k) none = some v := by
    rw [List.getD_eq_getElem?_getD, List.getElem?_drop, hkj2,
      ← List.getD_eq_getElem?_getD]
    exact h
  exact nextValidAux_isSome _ k (j - k) v hd

theorem nextValid_self {l : List (Option ℚ)} {k : ℕ} {v : ℚ}
    (h : l.getD k none = some v) : DataCleaner.nextValid l k = some (k, v) := by
  have hk : k < l.length := getD_some_lt h
  unfold DataCleaner.nextValid
  rw [List.drop_eq_getElem_cons hk]
  have hlk : l[k] = some v := by
    rw [List.getD_eq_getElem l none hk] at h
    exact h
  rw [hlk]
  rfl

theorem ffill_length (l : List (Option ℚ)) :
    (DataCleaner.ffill l).length = l.length := by
  simp [DataCleaner.ffill]

theorem bfill_length (l : List (Option ℚ)) :
    (DataCleaner.bfill l).length = l.length := by
  simp [DataCleaner.bfill]

theorem interpolate_length (l : List (Option ℚ)) :
    (DataCleaner.interpolate l).length = l.length := by
  simp [DataCleaner.interpolate]

theorem ffill_getD {l : List (Option ℚ)} {k : ℕ} (hk : k < l.length) :
    (DataCleaner.ffill l).getD k none = (DataCleaner.prevValid l k).map Prod.snd := by
  unfold DataCleaner.ffill
  rw [rangeMap_getD _ _ _ hk]

theorem bfill_getD {l : List (Option ℚ)} {k : ℕ} (hk : k < l.length) :
    (DataCleaner.bfill l).getD k none = (DataCleaner.nextValid l k).map Prod.snd := by
  unfold DataCleaner.bfill
  rw [rangeMap_getD _ _ _ hk]

theorem interpolate_getD_some {l : List (Option ℚ)} {k : ℕ} {v : ℚ}
    (h : l.getD k none = some v) (hk : k < l.length) :
    (DataCleaner.interpolate l).getD k none = some v := by
  unfold DataCleaner.interpolate
  rw [rangeMap_getD _ _ _ hk, h]

theorem impute_getD_isSome {l : List (Option ℚ)} {j : ℕ} {v : ℚ}
    (hj : l.getD j none = some v) {k : ℕ} (hk : k < l.length) :
    (((DataCleaner.bfill (DataCleaner.interpolate (DataCleaner.ffill l))).getD
        k none)).isSome = true := by
  set m := DataCleaner.interpolate (DataCleaner.ffill l) with hm
  have hml : m.length = l.length := by
    rw [hm, interpolate_length, ffill_length]
  have hkm : k < m.length := by omega
  rw [bfill_getD hkm]
  have hnv : (DataCleaner.nextValid m k).isSome = true := by
    rcases le_or_lt j k with hjk | hkj
    · have hpv := prevValid_isSome hj hjk
      obtain ⟨⟨i, w⟩, hiw⟩ := Option.isSome_iff_exists.mp hpv
      have hf : (DataCleaner.ffill l).getD k none = some w := by
        rw [ffill_getD hk, hiw]
        rfl
      have hmk : m.getD k none = some w := by
        rw [hm]
        exact interpolate_getD_some hf (by rw [ffill_length]; exact hk)
      exact nextValid_isSome hmk (le_refl k)
    · have hpvj := prevValid_isSome hj (le_refl j)
      obtain ⟨⟨i, w⟩, hiw⟩ := Option.isSome_iff_exists.mp hpvj
      have hjl : j < l.length := getD_some_lt hj
      have hf : (DataCleaner.ffill l).getD j none = some w := by
        rw [ffill_getD hjl, hiw]
        rfl
      have hmj : m.getD j none = some w := by
        rw [hm]
        exact interpolate_getD_some hf (by rw [ffill_length]; exact hjl)
      exact nextValid_isSome hmj (le_of_lt hkj)
  obtain ⟨⟨i, w⟩, hiw⟩ := Option.isSome_iff_exists.mp hnv
  rw [hiw]
  rfl

theorem rangeMap_eq_self {l : List (Option ℚ)} (f : ℕ → Option ℚ)
    (hf : ∀ k, k < l.length → f k = l.getD k none) :
    (List.range l.length).map f = l := by
  apply List.ext_getElem?
  intro k
  rw [rangeMap_getElem?]
  by_cases hk : k < l.length
  · rw [if_pos hk, hf k hk, getD_eq_some_getElem hk]
  · rw [if_neg hk, List.getElem?_eq_none (not_lt.mp hk)]

theorem ffill_id {l : List (Option ℚ)}
    (h : ∀ k, k < l.length → (l.getD k none).isSome = true) :
    DataCleaner.ffill l = l := by
  unfold DataCleaner.ffill
  apply rangeMap_eq_self
  intro k hk
  obtain ⟨v, hv⟩ := Option.isSome_iff_exists.mp (h k hk)
  rw [prevValid_self hv, hv]
  rfl

theorem bfill_id {l : List (Option ℚ)}
    (h : ∀ k, k < l.length → (l.getD k none).isSome = true) :
    DataCleaner.bfill l = l := by
  unfold DataCleaner.bfill
  apply rangeMap_eq_self
  intro k hk
  obtain ⟨v, hv⟩ := Option.isSome_iff_exists.mp (h k hk)
  rw [nextValid_self hv, hv]
  rfl

theorem interpolate_id {l : List (Option ℚ)}
    (h : ∀ k, k < l.length → (l.getD k none).isSome = true) :
    DataCleaner.interpolate l = l := by
  unfold DataCleaner.interpolate
  apply rangeMap_eq_self
  intro k hk
  obtain ⟨v, hv⟩ := Option.isSome_iff_exists.mp (h k hk)
  rw [hv]

theorem dedupKeysAux_sublist (seen : List ℕ) (rows : List (ℕ × Option ℚ)) :
    (DataCleaner.dedupKeysAux seen rows).Sublist rows := by
  induction rows generalizing seen with
  | nil => simp [DataCleaner.dedupKeysAux]
  | cons r rest ih =>
    by_cases h : r.1 ∈ seen
    · simp only [DataCleaner.dedupKeysAux, if_pos h]
      exact (ih seen).trans (List.sublist_cons_self r rest)
    · simp only [DataCleaner.dedupKeysAux, if_neg h]
      exact List.Sublist.cons₂ r (ih (r.1 :: seen))

theorem dedupKeysAux_nodup (rows : List (ℕ × Option ℚ)) : ∀ seen : List ℕ,
    ((DataCleaner.dedupKeysAux seen rows).map Prod.fst).Nodup ∧
    ∀ t ∈ (DataCleaner.dedupKeysAux seen rows).map Prod.fst, t ∉ seen := by
  induction rows with
  | nil =>
    intro seen
    simp [DataCleaner.dedupKeysAux]
  | cons r rest ih =>
    intro seen
    by_cases h : r.1 ∈ seen
    · simp only [DataCleaner.dedupKeysAux, if_pos h]
      exact ih seen
    · simp only [DataCleaner.dedupKeysAux, if_neg h, List.map_cons]
      obtain ⟨hnd, hnot⟩ := ih (r.1 :: seen)
      refine ⟨List.nodup_cons.mpr ⟨?_, hnd⟩, ?_⟩
      · intro hmem
        exact (hnot _ hmem) (List.mem_cons_self _ _)
      · intro t ht
        rcases List.mem_cons.mp ht with rfl | ht2
        · exact h
        · intro hseen
          exact (hnot t ht2) (List.mem_cons_of_mem _ hseen)

theorem dedupKeysAux_id (rows : List (ℕ × Option ℚ)) : ∀ seen : List ℕ,
    (rows.map Prod.fst).Nodup → (∀ r ∈ rows, r.1 ∉ seen) →
    DataCleaner.dedupKeysAux seen rows = rows := by
  induction rows with
  | nil =>
    intro seen _ _
    rfl
  | cons r rest ih =>
    intro seen hnd hns
    have h : r.1 ∉ seen := hns r (List.mem_cons_self _ _)
    simp only [DataCleaner.dedupKeysAux, if_neg h]
    congr 1
    apply ih (r.1 :: seen)
    · exact (List.nodup_cons.mp (by simpa using hnd)).2
    · intro x hx hmem
      rcases List.mem_cons.mp hmem with heq | hseen
      · have hr1 : r.1 ∉ rest.map Prod.fst :=
          (List.nodup_cons.mp (by simpa using hnd)).1
        exact hr1 (heq ▸ List.mem_map_of_mem Prod.fst hx)
      · exact hns x (List.mem_cons_of_mem _ hx) hseen

theorem hmv_map_fst (rows : List (ℕ × Option ℚ)) :
    (DataCleaner.handle_missing_values rows).map Prod.fst = rows.map Prod.fst := by
  unfold DataCleaner.handle_missing_values
  apply List.map_fst_zip
  rw [bfill_length, interpolate_length, ffill_length, List.length_map,
    List.length_map]

theorem hmv_map_snd (rows : List (ℕ × Option ℚ)) :
    (DataCleaner.handle_missing_values rows).map Prod.snd =
      DataCleaner.bfill (DataCleaner.interpolate (DataCleaner.ffill
        (rows.map Prod.snd))) := by
  unfold DataCleaner.handle_missing_values
  apply List.map_snd_zip
  rw [bfill_length, interpolate_length, ffill_length, List.length_map,
    List.length_map]

theorem clean_pair_ok_inv {S C : List (ℕ × Option ℚ)} {met : DataQualityMetrics}
    (h : DataCleaner.clean_pair S = .ok (C, met)) :
    (∀ r ∈ C, r.2.isSome = true) ∧ (C.map Prod.fst).Nodup := by
  simp only [DataCleaner.clean_pair] at h
  split_ifs at h with h1 h2
  cases h
  obtain ⟨r0, hr0mem, hr0some⟩ : ∃ r ∈ S, r.2.isSome = true := by
    by_contra hallno
    push_neg at hallno
    have hcall : S.countP (fun r => r.2.isNone) = S.length := by
      apply List.countP_eq_length.mpr
      intro r hr
      have hnot := hallno r hr
      cases hrv : r.2 with
      | none => simp
      | some v =>
        rw [hrv] at hnot
        cases hnot rfl
    apply h2
    rw [hcall]
    have hl0 : (0 : ℚ) < (S.length : ℚ) := by
      have : 0 < S.length := by omega
      exact_mod_cast this
    rw [div_self (ne_of_gt hl0)]
    norm_num
  obtain ⟨v, hv⟩ := Option.isSome_iff_exists.mp hr0some
  have hmemsnd : r0.2 ∈ S.map Prod.snd := List.mem_map_of_mem Prod.snd hr0mem
  obtain ⟨j, hj, hje⟩ := List.mem_iff_getElem.mp hmemsnd
  have hgd : (S.map Prod.snd).getD j none = some v := by
    rw [List.getD_eq_getElem _ _ hj, hje, hv]
  have himm : ∀ x ∈ DataCleaner.bfill (DataCleaner.interpolate (DataCleaner.ffill
      (S.map Prod.snd))), x.isSome = true := by
    intro x hx
    obtain ⟨k, hk, hke⟩ := List.mem_iff_getElem.mp hx
    have hkl : k < (S.map Prod.snd).length := by
      rw [bfill_length, interpolate_length, ffill_length] at hk
      exact hk
    have hiso := impute_getD_isSome hgd hkl
    rw [List.getD_eq_getElem _ _ hk, hke] at hiso
    exact hiso
  constructor
  · intro r hr
    simp only [DataCleaner.handle_outliers, List.mem_map] at hr
    obtain ⟨r1, hr1, hfr⟩ := hr
    have hr1v : r1.2.isSome = true := by
      have hr1mem : r1 ∈ DataCleaner.handle_missing_values S :=
        (dedupKeysAux_sublist [] _).subset hr1
      have : r1.2 ∈ (DataCleaner.handle_missing_values S).map Prod.snd :=
        List.mem_map_of_mem Prod.snd hr1mem
      rw [hmv_map_snd] at this
      exact himm _ this
    rw [← hfr]
    obtain ⟨w, hw⟩ := Option.isSome_iff_exists.mp hr1v
    rw [hw]
    rfl
  · have hfst : (DataCleaner.handle_outliers (DataCleaner.dedupKeys
        (DataCleaner.handle_missing_values S))).1.map Prod.fst =
        (DataCleaner.dedupKeys (DataCleaner.handle_missing_values S)).map
          Prod.fst := by
      simp [DataCleaner.handle_outliers, List.map_map, Function.comp_def]
    rw [hfst]
    exact (dedupKeysAux_nodup _ []).1

theorem map_fixed_of_map_eq_self {α : Type} {f : α → α} :
    ∀ {l : List α}, l.map f = l → ∀ a ∈ l, f a = a := by
  intro l
  induction l with
  | nil => intro _ a ha; cases ha
  | cons x t ih =>
    intro h a ha
    rw [List.map_cons, List.cons.injEq] at h
    rcases List.mem_cons.mp ha with rfl | hat
    · exact h.1
    · exact ih h.2 a hat

/-- C6 (amended): cleaning an already-cleaned series performs no further
imputation or duplicate removal; but the minimum-record guard and the
outlier step run again, the latter recomputing the IQR bounds on the
clipped data.  A second clean returns the cleaned series unchanged exactly
when the cleaned output still has at least `min_records = 3` rows and its
values lie within the bounds recomputed from the cleaned series itself;
otherwise it rejects the series or clips it further (see the
counterexample). -/
theorem C6_clean_idempotent_on_fixed (S C : List (ℕ × Option ℚ))
    (met : DataQualityMetrics)
    (hc : DataCleaner.clean_pair S = .ok (C, met)) :
    ((∃ m2, DataCleaner.clean_pair C = .ok (C, m2)) ↔
       (3 ≤ C.length ∧ ∀ v ∈ C.filterMap Prod.snd,
          DataCleaner.lowerBound (C.filterMap Prod.snd) ≤ v ∧
          v ≤ DataCleaner.upperBound (C.filterMap Prod.snd))) ∧
    (3 ≤ C.length →
     (∀ v ∈ C.filterMap Prod.snd,
        DataCleaner.lowerBound (C.filterMap Prod.snd) ≤ v ∧
        v ≤ DataCleaner.upperBound (C.filterMap Prod.snd)) →
     DataCleaner.clean_pair C = .ok (C, ⟨0, 0, 0, C.length, C.length⟩)) := by
  obtain ⟨hall, hnd⟩ := clean_pair_ok_inv hc
  have hmiss : C.countP (fun r => r.2.isNone) = 0 := by
    rw [List.countP_eq_zero]
    intro r hr
    have hs := hall r hr
    cases hr2 : r.2 with
    | none =>
      rw [hr2] at hs
      cases hs
    | some v => simp [hr2]
  have hvalsome : ∀ k, k < (C.map Prod.snd).length →
      (((C.map Prod.snd)).getD k none).isSome = true := by
    intro k hk
    have hkc : k < C.length := by
      rw [List.length_map] at hk
      exact hk
    rw [List.getD_eq_getElem _ _ hk, List.getElem_map]
    exact hall _ (List.getElem_mem hkc)
  have hhmv : DataCleaner.handle_missing_values C = C := by
    unfold DataCleaner.handle_missing_values
    rw [ffill_id hvalsome, interpolate_id hvalsome, bfill_id hvalsome]
    exact Eq.symm (List.zip_of_prod rfl rfl)
  have hded : DataCleaner.dedupKeys C = C :=
    dedupKeysAux_id C [] hnd (by intro r _; simp)
  have hmain : 3 ≤ C.length →
      (∀ v ∈ C.filterMap Prod.snd,
         DataCleaner.lowerBound (C.filterMap Prod.snd) ≤ v ∧
         v ≤ DataCleaner.upperBound (C.filterMap Prod.snd)) →
      DataCleaner.clean_pair C = .ok (C, ⟨0, 0, 0, C.length, C.length⟩) := by
   intro h3 hb
   have hout : DataCleaner.handle_outliers C = (C, 0) := by
     unfold DataCleaner.handle_outliers
     rw [Prod.mk.injEq]
     constructor
     · have hptw : ∀ r ∈ C, (fun r : ℕ × Option ℚ =>
           (r.1, r.2.map (fun v =>
             if v < DataCleaner.lowerBound (C.filterMap Prod.snd) then
               DataCleaner.lowerBound (C.filterMap Prod.snd)
             else if DataCleaner.upperBound (C.filterMap Prod.snd) < v then
               DataCleaner.upperBound (C.filterMap Prod.snd)
             else v))) r = id r := by
         intro r hr
         cases hrv : r.2 with
         | none =>
           simp only [hrv, Option.map_none', id]
           rw [← hrv]
         | some v =>
           have hvm : v ∈ C.filterMap Prod.snd :=
             List.mem_filterMap.mpr ⟨r, hr, hrv⟩
           obtain ⟨hlo, hhi⟩ := hb v hvm
           simp only [hrv, Option.map_some', id]
           rw [if_neg (not_lt.mpr hlo), if_neg (not_lt.mpr hhi), ← hrv]
       rw [List.map_congr_left hptw, List.map_id]
     · rw [List.countP_eq_zero]
       intro v hv
       obtain ⟨hlo, hhi⟩ := hb v hv
       simp only [Bool.or_eq_true, decide_eq_true_eq]
       rintro (hlt | hlt)
       · exact absurd hlt (not_lt.mpr hlo)
       · exact absurd hlt (not_lt.mpr hhi)
   simp only [DataCleaner.clean_pair]
   rw [if_neg (by omega : ¬ C.length < 3), hmiss]
   rw [if_neg (by norm_num : ¬ (3 : ℚ) / 10 < ((0 : ℕ) : ℚ) / (C.length : ℚ))]
   rw [hhmv, hded, hout]
   simp [Nat.sub_self]
  refine ⟨⟨?_, fun hcond =>
    ⟨⟨0, 0, 0, C.length, C.length⟩, hmain hcond.1 hcond.2⟩⟩, hmain⟩
  rintro ⟨m2, hex⟩
  simp only [DataCleaner.clean_pair] at hex
  split_ifs at hex with hg1 hg2
  refine ⟨by omega, ?_⟩
  rw [hhmv, hded] at hex
  simp only [DataCleaner.handle_outliers] at hex
  rw [Except.ok.injEq, Prod.mk.injEq] at hex
  obtain ⟨hmap, -⟩ := hex
  intro v hv
  obtain ⟨r, hr, hrv⟩ := List.mem_filterMap.mp hv
  have hfr := map_fixed_of_map_eq_self hmap r hr
  have hsnd := congrArg Prod.snd hfr
  simp only [hrv, Option.map_some'] at hsnd
  rw [Option.some_inj] at hsnd
  constructor
  · by_cases h1 : v < DataCleaner.lowerBound (C.filterMap Prod.snd)
    · rw [if_pos h1] at hsnd
      rw [hsnd] at h1
      exact absurd h1 (lt_irrefl v)
    · exact not_lt.mp h1
  · by_cases h1 : v < DataCleaner.lowerBound (C.filterMap Prod.snd)
    · rw [if_pos h1] at hsnd
      rw [hsnd] at h1
      exact absurd h1 (lt_irrefl v)
    · rw [if_neg h1] at hsnd
      by_cases h2 : DataCleaner.upperBound (C.filterMap Prod.snd) < v
      · rw [if_pos h2] at hsnd
        rw [hsnd] at h2
        exact absurd h2 (lt_irrefl v)
      · exact not_lt.mp h2

unseal Rat.add Rat.mul Rat.inv Rat.sub in
/-- Witness for C6: `[1, 2, 3]` is cleaned to itself (bounds [0, 4]), and a
second clean is the identity. -/
theorem C6_clean_idempotent_on_fixed_witness :
    DataCleaner.clean_pair [(0, some 1), (1, some 2), (2, some 3)] =
      .ok ([(0, some 1), (1, some 2), (2, some 3)], ⟨0, 0, 0, 3, 3⟩) := by
  have h := (C6_clean_idempotent_on_fixed
    [(0, some 1), (1, some 2), (2, some 3)]
    [(0, some 1), (1, some 2), (2, some 3)]
    ⟨0, 0, 0, 3, 3⟩ (by decide)).2 (by decide) (by decide)
  exact h

unseal Rat.add Rat.mul Rat.inv Rat.sub in
/-- Counterexample to C6 as stated: cleaning `[0, 0, 0, 100]` clips the
outlier to the upper bound 62.5, but cleaning the cleaned series again
recomputes the quartiles on the clipped data and clips 62.5 further down to
39.0625 — `clean` is not idempotent. -/
theorem C6_counterexample :
    DataCleaner.clean_pair exC6 =
      .ok ([(0, some 0), (1, some 0), (2, some 0), (3, some (125 / 2))],
           ⟨0, 0, 1, 4, 4⟩) ∧
    DataCleaner.clean_pair
        [(0, some 0), (1, some 0), (2, some 0), (3, some (125 / 2))] =
      .ok ([(0, some 0), (1, some 0), (2, some 0), (3, some (625 / 16))],
           ⟨0, 0, 1, 4, 4⟩) ∧
    ([(0, some 0), (1, some 0), (2, some 0), (3, some (625 / 16))] :
        List (ℕ × Option ℚ)) ≠
      [(0, some 0), (1, some 0), (2, some 0), (3, some (125 / 2))] := by
  refine ⟨by decide, by decide, by decide⟩
